import Mathlib

/-!
Verification development for the xpweb X-Plane web-API client library
(package `xpweb`).  The websocket subsystem is shallowly embedded: Go maps
become association lists with distinct keys, `uint64` becomes `Nat` with an
explicit `% 2 ^ 64` where overflow matters, fallible Go code returns
`Except`, and the background read loop becomes a step function on an
explicit client state.  Each definition is translated from the Go source
file and function named in its doc comment.
-/

set_option maxRecDepth 16000

/-- JSON values, as decoded by `encoding/json`.  Numbers are modelled by
their rational value: the websocket code never performs arithmetic on
dataref values (it stores them verbatim in `DatarefValue.Value`), and the
only numeric parsing it does (`req_id` fields, map keys) is exact decimal
integer parsing. -/
inductive JValue where
  | null
  | bool (b : Bool)
  | num (q : ℚ)
  | str (s : String)
  | arr (elems : List JValue)
  | obj (fields : List (String × JValue))

/-- Lookup in a Go map modelled as an association list (`m[k]`, comma-ok
form: `none` when the key is absent). -/
def goGet {κ α : Type} [DecidableEq κ] : List (κ × α) → κ → Option α
  | [], _ => none
  | p :: rest, k => if p.1 = k then some p.2 else goGet rest k

/-- Go map assignment `m[k] = v`: any existing entry for `k` is replaced.
The model removes the old entry and appends the new one; a Go map has no
observable entry order, so the resulting entry order is a model choice. -/
def goInsert {κ α : Type} [DecidableEq κ] (m : List (κ × α)) (k : κ) (v : α) :
    List (κ × α) :=
  m.filter (fun p => p.1 != k) ++ [(k, v)]

/-- Go `delete(m, k)`. -/
def goErase {κ α : Type} [DecidableEq κ] (m : List (κ × α)) (k : κ) :
    List (κ × α) :=
  m.filter (fun p => p.1 != k)

/-- `maps.Keys(m)` collected to a slice (in model order). -/
def goKeys {κ α : Type} (m : List (κ × α)) : List κ :=
  m.map Prod.fst

/-- `encoding/json` decodes a JSON object into a Go map: later duplicate
keys overwrite earlier ones. -/
def goObjMap (fields : List (String × JValue)) : List (String × JValue) :=
  fields.foldl (fun m p => goInsert m p.1 p.2) []

/-- source `part_001` (`xpweb`): `maxReqHistory = 1000`, the limit on
`WSReq` objects stored in a `reqHistory` object. -/
def maxReqHistory : ℕ := 1000

/-- `2 ^ 64`, the modulus of Go's `uint64` / `atomic.Uint64`. -/
def uint64Mod : ℕ := 2 ^ 64

/-- source `part_003`: websocket message type constants. -/
def MessageTypeResult : String := "result"

def MessageTypeDatarefSub : String := "dataref_subscribe_values"

def MessageTypeDatarefUpdate : String := "dataref_update_values"

def MessageTypeDatarefUnsub : String := "dataref_unsubscribe_values"

def MessageTypeDatarefSet : String := "dataref_set_values"

def MessageTypeCommandSub : String := "command_subscribe_is_active"

def MessageTypeCommandUnsub : String := "command_unsubscribe_is_active"

def MessageTypeCommandUpdate : String := "command_update_is_active"

def MessageTypeCommandSetIsActive : String := "command_set_is_active"

/-- source `datarefs.go`: `WSReq` is the payload of a websocket request
(`ReqID uint64`, `Type string`, `Params any`).  The unexported `wsClient`
back-pointer only serves method chaining and is not part of the data. -/
structure WSReq where
  reqID : ℕ
  type : String
  params : JValue

/-- source `part_001`: `reqHistory` stores submitted requests so they can
be looked up when a result is received.  The Go field is
`requests map[uint64]*WSReq` (plus a lock serialising access, which the
sequential model does not need). -/
structure reqHistory where
  requests : List (ℕ × WSReq)

/-- Well-formedness of the map model: a Go map never holds two entries
with the same key.  Every `reqHistory` reachable from `newReqHistory`
satisfies this. -/
def reqHistory.WF (rh : reqHistory) : Prop :=
  (goKeys rh.requests).Nodup

instance (rh : reqHistory) : Decidable rh.WF := by
  unfold reqHistory.WF
  infer_instance

/-- source `part_001`: `newReqHistory()`. -/
def newReqHistory : reqHistory :=
  ⟨[]⟩

/-- source `part_001` lines 330-345: `reqHistory.add` stores the request
keyed by its `ReqID`, then, if the entry count exceeds `maxReqHistory`,
sorts the key slice and deletes the first `numToTrim` (lowest) keys. -/
def reqHistory.add (rh : reqHistory) (req : WSReq) : reqHistory :=
  let m := goInsert rh.requests req.reqID req
  let requestCount := m.length
  if requestCount > maxReqHistory then
    let numToTrim := requestCount - maxReqHistory
    let reqIDs := (goKeys m).mergeSort (fun a b => decide (a ≤ b))
    ⟨(reqIDs.take numToTrim).foldl goErase m⟩
  else
    ⟨m⟩

/-- source `part_001` lines 347-351: `reqHistory.get` (Go returns the
`nil` pointer when the key is absent, modelled as `none`). -/
def reqHistory.get (rh : reqHistory) (reqID : ℕ) : Option WSReq :=
  goGet rh.requests reqID

/-- source `part_001` lines 353-357: `reqHistory.delete`. -/
def reqHistory.delete (rh : reqHistory) (reqID : ℕ) : reqHistory :=
  ⟨goErase rh.requests reqID⟩

/-- source `part_001`: `WSMessageResult` (`ReqID uint64`, `Type string`,
`Success bool`, `ErrorCode`, `ErrorMessage string`, and the
`Req *WSReq json:"-"` pointer the read loop fills in, `nil` ≙ `none`). -/
structure WSMessageResult where
  reqID : ℕ
  type : String
  success : Bool
  errorCode : String
  errorMessage : String
  req : Option WSReq

/-- source `part_001` lines 359-365: `reqHistory.applyToResult` looks the
request up, and when found deletes it from the history and attaches it to
the result message.  Go mutates `rh` and `msg` in place; the model returns
both updated values. -/
def reqHistory.applyToResult (rh : reqHistory) (msg : WSMessageResult) :
    reqHistory × WSMessageResult :=
  match rh.get msg.reqID with
  | some req => (rh.delete msg.reqID, { msg with req := some req })
  | none => (rh, msg)

/-- source `datarefs.go`: `Dataref` (`ID uint64`, `Name string`,
`ValueType ValueType`; `ValueType` is a string type). -/
structure Dataref where
  id : ℕ
  name : String
  valueType : String
deriving DecidableEq

/-- source `commands.go`: `Command` (`ID uint64`, `Name string`,
`Description string`). -/
structure Command where
  id : ℕ
  name : String
  description : String
deriving DecidableEq

/-- source `datarefs.go`: `DatarefValue` (`Dataref *Dataref`, `Value any`);
the `Dataref` pointer is `nil` (`none`) until the read loop populates it
from the cache. -/
structure DatarefValue where
  dataref : Option Dataref
  value : JValue

/-- source `part_001`: `CommandStatus` (`Command *Command`,
`IsActive bool`). -/
structure CommandStatus where
  command : Option Command
  isActive : Bool

/-- source `part_001`: `WSDatarefValuesMap` is `map[uint64]*DatarefValue`. -/
abbrev WSDatarefValuesMap := List (ℕ × DatarefValue)

/-- source `part_001`: `WSCommandStatusMap` is `map[uint64]*CommandStatus`. -/
abbrev WSCommandStatusMap := List (ℕ × CommandStatus)

/-- source `part_001`: `WSMessageDatarefUpdate`
(`Type string json:"type"`, `Data WSDatarefValuesMap json:"data"`). -/
structure WSMessageDatarefUpdate where
  type : String
  data : WSDatarefValuesMap

/-- source `part_001`: `WSMessageCommandUpdate`
(`Type string json:"type"`, `Data WSCommandStatusMap` — note: no json tag
on `Data`, so `encoding/json` matches the key `Data` exactly or any key
case-insensitively equal to `data`). -/
structure WSMessageCommandUpdate where
  type : String
  data : WSCommandStatusMap

/-- source `part_000`: the cached id and name lookup maps of `Client`
(`commandsByID`, `commandsByName`, `datarefsByID`, `datarefsByName`; the
HTTP machinery and locks are outside this model). -/
structure Client where
  commandsByID : List (ℕ × Command)
  commandsByName : List (String × Command)
  datarefsByID : List (ℕ × Dataref)
  datarefsByName : List (String × Dataref)

/-- source `datarefs.go` lines 161-169: `Client.GetDatarefByID` returns
the cached `Dataref` with the given id, or `nil` (`none`). -/
def Client.GetDatarefByID (c : Client) (id : ℕ) : Option Dataref :=
  goGet c.datarefsByID id

/-- source `datarefs.go` lines 173-181: `Client.GetDatarefByName`. -/
def Client.GetDatarefByName (c : Client) (name : String) : Option Dataref :=
  goGet c.datarefsByName name

/-- source `datarefs.go` lines 185-190: `Client.GetDatarefID` returns the
id of the named dataref, or zero when it is not cached. -/
def Client.GetDatarefID (c : Client) (name : String) : ℕ :=
  match c.GetDatarefByName name with
  | some dref => dref.id
  | none => 0

/-- source `commands.go` lines 157-165: `Client.GetCommandByID`. -/
def Client.GetCommandByID (c : Client) (id : ℕ) : Option Command :=
  goGet c.commandsByID id

/-- source `commands.go` lines 169-177: `Client.GetCommandByName`. -/
def Client.GetCommandByName (c : Client) (name : String) : Option Command :=
  goGet c.commandsByName name

/-- source `commands.go` lines 181-186: `Client.GetCommandID` returns the
id of the named command, or zero when it is not cached. -/
def Client.GetCommandID (c : Client) (name : String) : ℕ :=
  match c.GetCommandByName name with
  | some cmd => cmd.id
  | none => 0

/-- source `part_003`: `WSClient`.  Handler fields hold caller-supplied
functions whose bodies are external to this subsystem; the model records
only whether each is registered (`nil` or not), and the step function
reports the message a registered handler would receive.  `conn` records
whether the `*websocket.Conn` handle is non-`nil`, `messageID` is the
`atomic.Uint64` counter value. -/
structure WSClient where
  commandUpdateHandler : Bool
  datarefUpdateHandler : Bool
  resultHandler : Bool
  client : Client
  conn : Bool
  messageID : ℕ
  reqHistory : reqHistory

/-- source `part_001`: `wsMessageStub`, the generic struct receiving
inbound websocket messages (`Type string json:"type"` plus the retained
raw JSON, here the parse tree). -/
structure wsMessageStub where
  type : String
  json : JValue

/-- Failure cases of `wsMessageStub.UnmarshalJSON` (the MalformedMessage
condition of the spec): the frame is not a JSON object (so
`json.Unmarshal` into `map[string]any` fails), the object has no `type`
key, or the `type` value is not a string. -/
inductive StubErr where
  | notObject
  | noTypeKey
  | typeNotString
deriving DecidableEq

/-- source `part_001` lines 171-188: `wsMessageStub.UnmarshalJSON`
unmarshals the frame into a generic `map[string]any`, requires a `type`
key holding a string, and retains the raw JSON.  The model takes the
already-parsed JSON value; a frame whose bytes are not valid JSON also
surfaces as a receive error, which the read loop treats the same way. -/
def wsMessageStub.UnmarshalJSON (v : JValue) : Except StubErr wsMessageStub :=
  match v with
  | .obj fields =>
    match goGet (goObjMap fields) "type" with
    | none => .error .noTypeKey
    | some (.str s) => .ok ⟨s, v⟩
    | some _ => .error .typeNotString
  | _ => .error .notObject

/-- Go's `strconv.ParseUint(s, 10, 64)`: a non-empty all-decimal-digit
string whose value fits in a `uint64`; anything else (empty, sign, other
characters, overflow) is an error. -/
def parseUint64 (s : String) : Option ℕ :=
  if s.data.isEmpty then none
  else if s.data.all (fun c => c.isDigit) then
    let n := s.data.foldl (fun acc c => acc * 10 + (c.toNat - 48)) 0
    if n < uint64Mod then some n else none
  else none

/-- `encoding/json` decode of a JSON value into a Go `string` field:
a string sets the field, `null` leaves the zero value, anything else is a
type error. -/
def jsonToString (v : JValue) : Except Unit String :=
  match v with
  | .str s => .ok s
  | .null => .ok ""
  | _ => .error ()

/-- `encoding/json` decode into a Go `bool` field. -/
def jsonToBool (v : JValue) : Except Unit Bool :=
  match v with
  | .bool b => .ok b
  | .null => .ok false
  | _ => .error ()

/-- `encoding/json` decode into a Go `uint64` field: the number token must
be an unsigned integer that fits in 64 bits; `null` leaves the zero
value. -/
def jsonToUint64 (v : JValue) : Except Unit ℕ :=
  match v with
  | .num q =>
    if q.den = 1 ∧ 0 ≤ q.num ∧ q.num < (uint64Mod : ℤ) then .ok q.num.toNat
    else .error ()
  | .null => .ok 0
  | _ => .error ()

/-- Decode one struct field from a decoded JSON object: an absent key
leaves the Go zero value `z`. -/
def jsonField {α : Type} (m : List (String × JValue)) (k : String)
    (dec : JValue → Except Unit α) (z : α) : Except Unit α :=
  match goGet m k with
  | none => .ok z
  | some v => dec v

/-- `encoding/json` decode of a frame into `WSMessageResult`
(fields `req_id`, `type`, `success`, `error_code`, `error_message`; the
`Req` pointer is tagged `json:"-"` and stays `nil`).  `json.Unmarshal` of
`null` into a struct is a no-op; a non-object frame is a type error. -/
def WSMessageResult.decode (v : JValue) : Except Unit WSMessageResult :=
  match v with
  | .obj fields => do
    let m := goObjMap fields
    let reqID ← jsonField m "req_id" jsonToUint64 0
    let type ← jsonField m "type" jsonToString ""
    let success ← jsonField m "success" jsonToBool false
    let errorCode ← jsonField m "error_code" jsonToString ""
    let errorMessage ← jsonField m "error_message" jsonToString ""
    .ok ⟨reqID, type, success, errorCode, errorMessage, none⟩
  | .null => .ok ⟨0, "", false, "", "", none⟩
  | _ => .error ()

/-- source `part_001` lines 234-240: the key loop of
`WSDatarefValuesMap.UnmarshalJSON` — each JSON object key is parsed with
`strconv.ParseUint(idString, 10, 64)`; a parse failure aborts the whole
decode, otherwise a `DatarefValue` holding the raw value is stored under
the numeric id. -/
def wsDatarefValuesLoop :
    List (String × JValue) → WSDatarefValuesMap →
      Except Unit WSDatarefValuesMap
  | [], valMap => .ok valMap
  | p :: rest, valMap =>
    match parseUint64 p.1 with
    | none => .error ()
    | some id => wsDatarefValuesLoop rest (goInsert valMap id ⟨none, p.2⟩)

/-- source `part_001` lines 226-242: `WSDatarefValuesMap.UnmarshalJSON`.
The raw value is unmarshalled into `map[string]any` (object required;
JSON `null` leaves the freshly made map empty), then every key is decoded
as a decimal id. -/
def WSDatarefValuesMap.UnmarshalJSON (v : JValue) :
    Except Unit WSDatarefValuesMap :=
  match v with
  | .obj fields => wsDatarefValuesLoop (goObjMap fields) []
  | .null => .ok []
  | _ => .error ()

/-- `encoding/json` decode of the `data` value into `map[string]bool` for
`WSCommandStatusMap.UnmarshalJSON`: every value must be a JSON bool
(`null` stores the zero value `false`). -/
def jsonToStringBoolMap :
    List (String × JValue) → Except Unit (List (String × Bool))
  | [] => .ok []
  | p :: rest => do
    let b ← jsonToBool p.2
    let m ← jsonToStringBoolMap rest
    .ok ((p.1, b) :: m)

/-- source `part_001` lines 279-285: the key loop of
`WSCommandStatusMap.UnmarshalJSON`. -/
def wsCommandStatusLoop :
    List (String × Bool) → WSCommandStatusMap →
      Except Unit WSCommandStatusMap
  | [], valMap => .ok valMap
  | p :: rest, valMap =>
    match parseUint64 p.1 with
    | none => .error ()
    | some id => wsCommandStatusLoop rest (goInsert valMap id ⟨none, p.2⟩)

/-- source `part_001` lines 271-287: `WSCommandStatusMap.UnmarshalJSON`.
The raw value is unmarshalled into `map[string]bool`, then every key is
decoded as a decimal id. -/
def WSCommandStatusMap.UnmarshalJSON (v : JValue) :
    Except Unit WSCommandStatusMap :=
  match v with
  | .obj fields => do
    let dataMap ← jsonToStringBoolMap (goObjMap fields)
    wsCommandStatusLoop dataMap []
  | .null => .ok []
  | _ => .error ()

/-- `encoding/json` decode of a frame into `WSMessageDatarefUpdate`:
field `type` (tag `json:"type"`), field `Data` (tag `json:"data"`) decoded
by `WSDatarefValuesMap.UnmarshalJSON`; an absent `data` key leaves the
`nil` (empty) map. -/
def WSMessageDatarefUpdate.decode (v : JValue) :
    Except Unit WSMessageDatarefUpdate :=
  match v with
  | .obj fields => do
    let m := goObjMap fields
    let type ← jsonField m "type" jsonToString ""
    let data ←
      match goGet m "data" with
      | none => .ok []
      | some dv => WSDatarefValuesMap.UnmarshalJSON dv
    .ok ⟨type, data⟩
  | .null => .ok ⟨"", []⟩
  | _ => .error ()

/-- Field-key match for the untagged `Data` field of
`WSMessageCommandUpdate`: `encoding/json` prefers the exact key `Data`,
then falls back to the first key equal to `data` ignoring case. -/
def lookupDataField (m : List (String × JValue)) : Option JValue :=
  match goGet m "Data" with
  | some v => some v
  | none =>
    match m.find? (fun p => p.1.toLower == "data") with
    | some p => some p.2
    | none => none

/-- `encoding/json` decode of a frame into `WSMessageCommandUpdate`. -/
def WSMessageCommandUpdate.decode (v : JValue) :
    Except Unit WSMessageCommandUpdate :=
  match v with
  | .obj fields => do
    let m := goObjMap fields
    let type ← jsonField m "type" jsonToString ""
    let data ←
      match lookupDataField m with
      | none => .ok []
      | some dv => WSCommandStatusMap.UnmarshalJSON dv
    .ok ⟨type, data⟩
  | .null => .ok ⟨"", []⟩
  | _ => .error ()

/-- The decoded inbound message variants of `wsMessageStub.toMessage`
(Go returns them behind `any`). -/
inductive WSMessage where
  | result (m : WSMessageResult)
  | datarefUpdate (m : WSMessageDatarefUpdate)
  | commandUpdate (m : WSMessageCommandUpdate)

/-- Failure cases of `wsMessageStub.toMessage`: the
`unknown message type: ...` error for an unrecognised tag, or a
`copyTo` (`json.Unmarshal`) failure while fully decoding the variant. -/
inductive ToMessageErr where
  | unknownMessageType (t : String)
  | copyErr
deriving DecidableEq

/-- source `part_001` lines 196-211: `wsMessageStub.toMessage` switches on
the stored tag over the three known inbound variants (`result`,
`dataref_update_values`, `command_update_is_active`), fully decodes the
retained JSON into the selected variant via `copyTo`, and returns the
`unknown message type` error otherwise. -/
def wsMessageStub.toMessage (m : wsMessageStub) :
    Except ToMessageErr WSMessage :=
  if m.type = MessageTypeResult then
    match WSMessageResult.decode m.json with
    | .ok r => .ok (.result r)
    | .error _ => .error .copyErr
  else if m.type = MessageTypeDatarefUpdate then
    match WSMessageDatarefUpdate.decode m.json with
    | .ok r => .ok (.datarefUpdate r)
    | .error _ => .error .copyErr
  else if m.type = MessageTypeCommandUpdate then
    match WSMessageCommandUpdate.decode m.json with
    | .ok r => .ok (.commandUpdate r)
    | .error _ => .error .copyErr
  else
    .error (.unknownMessageType m.type)

/-- The combined decode failures a received frame can produce in the read
loop: a stub failure (surfaced by `websocket.JSON.Receive`, the spec's
MalformedMessage condition), an unknown tag, or a variant decode error. -/
inductive DecodeFailure where
  | malformed (e : StubErr)
  | unknownMessageType (t : String)
  | variantDecode
deriving DecidableEq

/-- The read loop's two-stage decode of one frame: `UnmarshalJSON` into
the stub (inside `websocket.JSON.Receive`), then `toMessage`. -/
def decodeFrame (v : JValue) : Except DecodeFailure WSMessage :=
  match wsMessageStub.UnmarshalJSON v with
  | .error e => .error (.malformed e)
  | .ok stub =>
    match stub.toMessage with
    | .ok msg => .ok msg
    | .error (.unknownMessageType t) => .error (.unknownMessageType t)
    | .error .copyErr => .error .variantDecode

/-- source `part_001` lines 254-258: `WSMessageDatarefUpdate.populateDatarefs`
sets each entry's `Dataref` pointer from the client cache
(`wsc.client.GetDatarefByID`); Go mutates the entries in place. -/
def WSMessageDatarefUpdate.populateDatarefs (u : WSMessageDatarefUpdate)
    (wsc : WSClient) : WSMessageDatarefUpdate :=
  { u with
    data := u.data.map
      (fun p => (p.1, { p.2 with dataref := wsc.client.GetDatarefByID p.1 })) }

/-- source `part_001` lines 301-305: `WSMessageCommandUpdate.populateCommands`. -/
def WSMessageCommandUpdate.populateCommands (u : WSMessageCommandUpdate)
    (wsc : WSClient) : WSMessageCommandUpdate :=
  { u with
    data := u.data.map
      (fun p => (p.1, { p.2 with command := wsc.client.GetCommandByID p.1 })) }

/-- The kind of error `websocket.JSON.Receive` returns in the read loop:
the two peer-closed conditions the code tests with `errors.Is`
(`syscall.ECONNRESET`, `syscall.ECONNABORTED`), or any other receive
error. -/
inductive ReadErrKind where
  | connReset
  | connAborted
  | other
deriving DecidableEq

/-- One outcome of the blocking `websocket.JSON.Receive` call: either a
frame that arrived as valid JSON, or a receive error.  (A frame whose
bytes are not valid JSON surfaces as a `.frame` whose stub decode fails —
both paths are handled identically by the loop — so `.readErr .other`
also covers it.) -/
inductive ReadEvent where
  | frame (v : JValue)
  | readErr (k : ReadErrKind)

/-- What the read loop does after handling one event: keep looping, or
return after spawning `go wsc.reconnectLoop()`. -/
inductive LoopAction where
  | continueLoop
  | startReconnect
deriving DecidableEq

/-- The two `log.Printf` messages of the read loop. -/
inductive LogEvent where
  | readFailed
  | unmarshalFailed
deriving DecidableEq

/-- The message a registered handler receives during dispatch. -/
inductive Dispatched where
  | result (m : WSMessageResult)
  | datarefUpdate (m : WSMessageDatarefUpdate)
  | commandUpdate (m : WSMessageCommandUpdate)

/-- Everything one iteration of the read loop produces: the updated
client state, whether the loop continues, the message handed to a
registered handler (if any), and the log line written (if any). -/
structure StepResult where
  state : WSClient
  action : LoopAction
  dispatched : Option Dispatched
  logged : Option LogEvent

/-- source `part_003` lines 61-83: the dispatch switch of the read loop.
A `result` message is enriched via `applyToResult` and handed to the
result handler only when one is registered; the update variants are
enriched from the cache via their populate methods only when their
handler is registered; an unregistered handler means the decoded message
is dropped with no state change. -/
def dispatchMessage (wsc : WSClient) (msg : WSMessage) : StepResult :=
  match msg with
  | .result m =>
    if wsc.resultHandler then
      let p := wsc.reqHistory.applyToResult m
      ⟨{ wsc with reqHistory := p.1 }, .continueLoop, some (.result p.2), none⟩
    else ⟨wsc, .continueLoop, none, none⟩
  | .datarefUpdate m =>
    if wsc.datarefUpdateHandler then
      ⟨wsc, .continueLoop, some (.datarefUpdate (m.populateDatarefs wsc)), none⟩
    else ⟨wsc, .continueLoop, none, none⟩
  | .commandUpdate m =>
    if wsc.commandUpdateHandler then
      ⟨wsc, .continueLoop, some (.commandUpdate (m.populateCommands wsc)), none⟩
    else ⟨wsc, .continueLoop, none, none⟩

/-- source `part_003` lines 42-85: one iteration of `WSClient.readLoop`.
A receive error that is `ECONNRESET`/`ECONNABORTED` starts the reconnect
loop and exits; any other receive error (including a stub unmarshal
failure, which `websocket.JSON.Receive` returns through the same `err`)
logs `failed to read message` and continues; a `toMessage` failure logs
`failed to unmarshal incoming message` and continues; a decoded message
is dispatched. -/
def WSClient.readLoopStep (wsc : WSClient) (ev : ReadEvent) : StepResult :=
  match ev with
  | .readErr .connReset => ⟨wsc, .startReconnect, none, none⟩
  | .readErr .connAborted => ⟨wsc, .startReconnect, none, none⟩
  | .readErr .other => ⟨wsc, .continueLoop, none, some .readFailed⟩
  | .frame v =>
    match wsMessageStub.UnmarshalJSON v with
    | .error _ => ⟨wsc, .continueLoop, none, some .readFailed⟩
    | .ok stub =>
      match stub.toMessage with
      | .error _ => ⟨wsc, .continueLoop, none, some .unmarshalFailed⟩
      | .ok msg => dispatchMessage wsc msg

/-- The read loop run over a finite schedule of receive outcomes:
returns the final state, the messages dispatched to handlers in order,
and whether the loop exited to the reconnect loop (rather than running
out of scheduled events). -/
def WSClient.readLoopRun (wsc : WSClient) :
    List ReadEvent → WSClient × List Dispatched × Bool
  | [] => (wsc, [], false)
  | ev :: rest =>
    let r := wsc.readLoopStep ev
    match r.action with
    | .startReconnect => (r.state, r.dispatched.toList, true)
    | .continueLoop =>
      let rec2 := WSClient.readLoopRun r.state rest
      (rec2.1, r.dispatched.toList ++ rec2.2.1, rec2.2.2)

/-- source `part_003` lines 88-98: `WSClient.reconnectLoop` calls
`Connect` until one attempt succeeds, sleeping `reconnectFreq` between
failures.  Modelled over a finite schedule of attempt outcomes (`true` =
`Connect` returned `nil`): it returns the number of failed attempts
before the first success, or `none` when every scheduled attempt fails
(the Go loop would still be retrying). -/
def reconnectLoop : List Bool → Option ℕ
  | [] => none
  | ok :: rest =>
    if ok then some 0
    else (reconnectLoop rest).map (· + 1)

/-- Outcome of `WSClient.Send`: `nil`, a transport write error returned
by `websocket.JSON.Send`, or — when `c.conn` is `nil` because no
connection is open — the `nil`-pointer dereference `websocket.JSON.Send`
commits on the absent handle (a runtime panic, not a returned error). -/
inductive SendOutcome where
  | ok
  | writeErr
  | nilConnCrash
deriving DecidableEq

/-- source `part_003` lines 101-109: `WSClient.Send` first records the
request in the history (`c.reqHistory.add(req)`), then writes it with
`websocket.JSON.Send(c.conn, req)` and returns that call's error.  There
is no connection check: with `c.conn == nil` the write dereferences the
nil handle.  Whether the transport write fails is an external input
(`writeFails`). -/
def WSClient.Send (c : WSClient) (req : WSReq) (writeFails : Bool) :
    WSClient × SendOutcome :=
  let c2 := { c with reqHistory := c.reqHistory.add req }
  if c.conn then
    if writeFails then (c2, .writeErr) else (c2, .ok)
  else
    (c2, .nilConnCrash)

/-- source `datarefs.go` lines 602-604: `WSClient.NewReq` stamps the next
request id with `wsc.messageID.Add(1)` — the atomic counter increments
(wrapping as a `uint64`) and the incremented value is returned. -/
def WSClient.NewReq (wsc : WSClient) : WSClient × WSReq :=
  let c := (wsc.messageID + 1) % uint64Mod
  ({ wsc with messageID := c }, { reqID := c, type := "", params := .null })

/-- The request ids returned by `n` successive `NewReq` calls on a client
instance. -/
def WSClient.runNewReqs (wsc : WSClient) : ℕ → List ℕ
  | 0 => []
  | n + 1 =>
    let p := wsc.NewReq
    p.2.reqID :: p.1.runNewReqs n

/-- A concrete request with the given id, as built by the request builder
before a type and params are applied (`NewReq` leaves them zero). -/
def mkWSReq (i : ℕ) : WSReq :=
  ⟨i, "", .null⟩

/-- The `type` tag of a frame as the stub decoder sees it: the value
stored under the `type` key when the frame is a JSON object, and absent
otherwise. -/
def frameTag (v : JValue) : Option JValue :=
  match v with
  | .obj fields => goGet (goObjMap fields) "type"
  | _ => none

/-- A tag string names a known inbound variant when some frame carrying
that tag fully decodes (`wsMessageStub.toMessage` succeeds on it). -/
def knownInboundTag (t : String) : Prop :=
  ∃ (j : JValue) (m : WSMessage), (wsMessageStub.mk t j).toMessage = .ok m

theorem goGet_eq_none_iff {κ α : Type} [DecidableEq κ] (m : List (κ × α))
    (k : κ) : goGet m k = none ↔ k ∉ goKeys m := by
  induction m with
  | nil => simp [goGet, goKeys]
  | cons p rest ih =>
    by_cases h : p.1 = k
    · simp [goGet, goKeys, h]
    · simp [goGet, goKeys, h, ih, Ne.symm h]

theorem mem_goKeys_goErase {κ α : Type} [DecidableEq κ] (m : List (κ × α))
    (k k2 : κ) : k2 ∈ goKeys (goErase m k) ↔ k2 ∈ goKeys m ∧ k2 ≠ k := by
  simp only [goKeys, goErase, List.mem_map, List.mem_filter, bne_iff_ne]
  constructor
  · rintro ⟨p, ⟨hp, hne⟩, rfl⟩
    exact ⟨⟨p, hp, rfl⟩, by simpa using hne⟩
  · rintro ⟨⟨p, hp, rfl⟩, hne⟩
    exact ⟨p, ⟨hp, by simpa using hne⟩, rfl⟩

theorem goErase_eq_self {κ α : Type} [DecidableEq κ] (m : List (κ × α))
    (k : κ) (h : k ∉ goKeys m) : goErase m k = m := by
  induction m with
  | nil => rfl
  | cons p rest ih =>
    simp only [goKeys, List.map_cons, List.mem_cons] at h
    push_neg at h
    simp only [goErase, List.filter_cons]
    rw [if_pos (by simpa [bne_iff_ne] using Ne.symm h.1)]
    have := ih (by simpa [goKeys] using h.2)
    simp only [goErase] at this
    rw [this]

theorem goGet_goErase_ne {κ α : Type} [DecidableEq κ] (m : List (κ × α))
    (k k2 : κ) (h : k2 ≠ k) : goGet (goErase m k) k2 = goGet m k2 := by
  induction m with
  | nil => rfl
  | cons p rest ih =>
    by_cases hp : p.1 = k
    · have : goErase (p :: rest) k = goErase rest k := by
        simp [goErase, List.filter_cons, hp]
      rw [this, ih, goGet]
      rw [if_neg (by simp [hp, Ne.symm h])]
    · have : goErase (p :: rest) k = p :: goErase rest k := by
        simp [goErase, List.filter_cons, hp]
      rw [this]
      by_cases hk : p.1 = k2
      · simp [goGet, hk]
      · simp [goGet, hk, ih]

theorem goGet_goErase_self {κ α : Type} [DecidableEq κ] (m : List (κ × α))
    (k : κ) : goGet (goErase m k) k = none := by
  rw [goGet_eq_none_iff, mem_goKeys_goErase]
  simp

theorem goGet_append_right {κ α : Type} [DecidableEq κ]
    (m1 m2 : List (κ × α)) (k : κ) (h : k ∉ goKeys m1) :
    goGet (m1 ++ m2) k = goGet m2 k := by
  induction m1 with
  | nil => rfl
  | cons p rest ih =>
    simp only [goKeys, List.map_cons, List.mem_cons] at h
    push_neg at h
    simp only [List.cons_append, goGet]
    rw [if_neg (fun hh => h.1 hh.symm), List.append_eq,
      ih (by simpa [goKeys] using h.2)]

theorem goGet_append_left {κ α : Type} [DecidableEq κ]
    (m1 m2 : List (κ × α)) (k : κ) (v : α) (h : goGet m1 k = some v) :
    goGet (m1 ++ m2) k = some v := by
  induction m1 with
  | nil => simp [goGet] at h
  | cons p rest ih =>
    simp only [List.cons_append, goGet] at h ⊢
    by_cases hp : p.1 = k
    · simpa [hp] using h
    · rw [if_neg hp] at h ⊢
      exact ih h

theorem goGet_goInsert_self {κ α : Type} [DecidableEq κ] (m : List (κ × α))
    (k : κ) (v : α) : goGet (goInsert m k v) k = some v := by
  unfold goInsert
  rw [goGet_append_right]
  · simp [goGet]
  · have : m.filter (fun p => p.1 != k) = goErase m k := rfl
    rw [this, mem_goKeys_goErase]
    simp

theorem goGet_goInsert_ne {κ α : Type} [DecidableEq κ] (m : List (κ × α))
    (k k2 : κ) (v : α) (h : k2 ≠ k) :
    goGet (goInsert m k v) k2 = goGet m k2 := by
  unfold goInsert
  have hfe : m.filter (fun p => p.1 != k) = goErase m k := rfl
  cases hget : goGet (goErase m k) k2 with
  | some w =>
    rw [hfe, goGet_append_left _ _ _ _ hget]
    rw [← goGet_goErase_ne m k k2 h, hget]
  | none =>
    rw [hfe, goGet_append_right _ _ _ ((goGet_eq_none_iff _ _).mp hget)]
    rw [← goGet_goErase_ne m k k2 h, hget]
    simp [goGet, Ne.symm h]

theorem mem_goKeys_goInsert {κ α : Type} [DecidableEq κ] (m : List (κ × α))
    (k k2 : κ) (v : α) :
    k2 ∈ goKeys (goInsert m k v) ↔ k2 = k ∨ k2 ∈ goKeys m := by
  unfold goInsert
  have hfe : m.filter (fun p => p.1 != k) = goErase m k := rfl
  rw [hfe]
  simp only [goKeys, List.map_append, List.mem_append]
  constructor
  · rintro (h | h)
    · rcases (mem_goKeys_goErase m k k2).mp (by simpa [goKeys] using h) with ⟨h1, _⟩
      exact Or.inr h1
    · simp at h
      exact Or.inl h
  · rintro (rfl | h)
    · simp
    · by_cases hk : k2 = k
      · simp [hk]
      · exact Or.inl (by simpa [goKeys] using (mem_goKeys_goErase m k k2).mpr ⟨h, hk⟩)

theorem goKeys_sublist_goErase {κ α : Type} [DecidableEq κ]
    (m : List (κ × α)) (k : κ) :
    (goKeys (goErase m k)).Sublist (goKeys m) :=
  (List.filter_sublist m).map Prod.fst

theorem nodup_goKeys_goErase {κ α : Type} [DecidableEq κ] (m : List (κ × α))
    (k : κ) (h : (goKeys m).Nodup) : (goKeys (goErase m k)).Nodup :=
  h.sublist (goKeys_sublist_goErase m k)

theorem nodup_goKeys_goInsert {κ α : Type} [DecidableEq κ] (m : List (κ × α))
    (k : κ) (v : α) (h : (goKeys m).Nodup) :
    (goKeys (goInsert m k v)).Nodup := by
  unfold goInsert
  have hfe : m.filter (fun p => p.1 != k) = goErase m k := rfl
  rw [hfe]
  have hkeys : goKeys (goErase m k ++ [(k, v)]) =
      goKeys (goErase m k) ++ [k] := by simp [goKeys]
  rw [hkeys, List.nodup_append]
  refine ⟨nodup_goKeys_goErase m k h, by simp, ?_⟩
  intro a ha
  simp only [List.mem_singleton]
  rcases (mem_goKeys_goErase m k a).mp ha with ⟨_, hne⟩
  simpa using hne

theorem length_goErase_of_mem {κ α : Type} [DecidableEq κ]
    (m : List (κ × α)) (k : κ) (hnd : (goKeys m).Nodup)
    (hmem : k ∈ goKeys m) : (goErase m k).length = m.length - 1 := by
  induction m with
  | nil => simp [goKeys] at hmem
  | cons p rest ih =>
    simp only [goKeys, List.map_cons, List.nodup_cons] at hnd
    by_cases hp : p.1 = k
    · have h1 : goErase (p :: rest) k = goErase rest k := by
        simp [goErase, List.filter_cons, hp]
      have h2 : goErase rest k = rest :=
        goErase_eq_self rest k (by rw [← hp]; exact hnd.1)
      simp [h1, h2]
    · have h1 : goErase (p :: rest) k = p :: goErase rest k := by
        simp [goErase, List.filter_cons, hp]
      have hmem2 : k ∈ goKeys rest := by
        simp only [goKeys, List.map_cons, List.mem_cons] at hmem
        rcases hmem with h | h
        · exact absurd h.symm hp
        · exact h
      have hlen := ih hnd.2 hmem2
      have hpos : 1 ≤ rest.length := by
        rcases rest with _ | _
        · simp [goKeys] at hmem2
        · simp
      rw [h1]
      simp only [List.length_cons, hlen]
      omega

theorem goInsert_fresh {κ α : Type} [DecidableEq κ] (m : List (κ × α))
    (k : κ) (v : α) (h : k ∉ goKeys m) : goInsert m k v = m ++ [(k, v)] := by
  unfold goInsert
  have hfe : m.filter (fun p => p.1 != k) = goErase m k := rfl
  rw [hfe, goErase_eq_self m k h]

theorem length_goInsert {κ α : Type} [DecidableEq κ] (m : List (κ × α))
    (k : κ) (v : α) : (goInsert m k v).length = (goErase m k).length + 1 := by
  simp [goInsert, goErase]

theorem mem_goKeys_foldl_goErase {κ α : Type} [DecidableEq κ]
    (ks : List κ) (m : List (κ × α)) (k : κ) :
    k ∈ goKeys (ks.foldl goErase m) ↔ k ∈ goKeys m ∧ k ∉ ks := by
  induction ks generalizing m with
  | nil => simp
  | cons k2 rest ih =>
    simp only [List.foldl_cons, ih, mem_goKeys_goErase, List.mem_cons]
    constructor
    · rintro ⟨⟨h1, h2⟩, h3⟩
      exact ⟨h1, by simp [h2, h3]⟩
    · rintro ⟨h1, h2⟩
      push_neg at h2
      exact ⟨⟨h1, h2.1⟩, h2.2⟩

theorem nodup_goKeys_foldl_goErase {κ α : Type} [DecidableEq κ]
    (ks : List κ) (m : List (κ × α)) (h : (goKeys m).Nodup) :
    (goKeys (ks.foldl goErase m)).Nodup := by
  induction ks generalizing m with
  | nil => exact h
  | cons k2 rest ih =>
    exact ih (goErase m k2) (nodup_goKeys_goErase m k2 h)

theorem length_foldl_goErase {κ α : Type} [DecidableEq κ]
    (ks : List κ) (m : List (κ × α)) (hm : (goKeys m).Nodup)
    (hks : ks.Nodup) (hsub : ∀ k ∈ ks, k ∈ goKeys m) :
    (ks.foldl goErase m).length = m.length - ks.length := by
  induction ks generalizing m with
  | nil => simp
  | cons k2 rest ih =>
    simp only [List.nodup_cons] at hks
    have hk2 : k2 ∈ goKeys m := hsub k2 (List.mem_cons_self _ _)
    have hrest : ∀ k ∈ rest, k ∈ goKeys (goErase m k2) := by
      intro k hk
      rw [mem_goKeys_goErase]
      refine ⟨hsub k (List.mem_cons_of_mem _ hk), ?_⟩
      rintro rfl
      exact hks.1 hk
    rw [List.foldl_cons,
      ih (goErase m k2) (nodup_goKeys_goErase m k2 hm) hks.2 hrest,
      length_goErase_of_mem m k2 hm hk2]
    simp only [List.length_cons]
    omega

theorem goGet_foldl_goErase_of_mem {κ α : Type} [DecidableEq κ]
    (ks : List κ) (m : List (κ × α)) (k : κ) (h : k ∈ ks) :
    goGet (ks.foldl goErase m) k = none := by
  rw [goGet_eq_none_iff, mem_goKeys_foldl_goErase]
  simp [h]

theorem goGet_foldl_goErase_of_not_mem {κ α : Type} [DecidableEq κ]
    (ks : List κ) (m : List (κ × α)) (k : κ) (h : k ∉ ks) :
    goGet (ks.foldl goErase m) k = goGet m k := by
  induction ks generalizing m with
  | nil => rfl
  | cons k2 rest ih =>
    simp only [List.mem_cons] at h
    push_neg at h
    rw [List.foldl_cons, ih (goErase m k2) h.2, goGet_goErase_ne m k2 k h.1]

theorem goGet_map_pair {α : Type} (reqs : List α) (key : α → ℕ)
    (hnd : (reqs.map key).Nodup) (r : α) (hr : r ∈ reqs) :
    goGet (reqs.map (fun x => (key x, x))) (key r) = some r := by
  induction reqs with
  | nil => simp at hr
  | cons a rest ih =>
    simp only [List.map_cons, List.nodup_cons] at hnd
    rcases List.mem_cons.mp hr with rfl | hmem
    · simp [goGet]
    · have hne : key a ≠ key r := by
        intro heq
        exact hnd.1 (heq ▸ List.mem_map_of_mem key hmem)
      simp only [goGet, if_neg hne]
      exact ih hnd.2 hmem

theorem goKeys_map_pair {α : Type} (l : List α) (key : α → ℕ) :
    goKeys (l.map (fun x => (key x, x))) = l.map key := by
  simp [goKeys, List.map_map, Function.comp]

theorem add_of_le (rh : reqHistory) (req : WSReq)
    (h : (goInsert rh.requests req.reqID req).length ≤ maxReqHistory) :
    rh.add req = ⟨goInsert rh.requests req.reqID req⟩ := by
  simp only [reqHistory.add]
  rw [if_neg (by omega)]

theorem add_of_gt (rh : reqHistory) (req : WSReq)
    (h : maxReqHistory < (goInsert rh.requests req.reqID req).length) :
    rh.add req =
      ⟨(((goKeys (goInsert rh.requests req.reqID req)).mergeSort
            (fun a b => decide (a ≤ b))).take
          ((goInsert rh.requests req.reqID req).length - maxReqHistory)).foldl
        goErase (goInsert rh.requests req.reqID req)⟩ := by
  simp only [reqHistory.add]
  rw [if_pos (by omega)]

theorem sortedKeys_pairwise (l : List ℕ) :
    ((l.mergeSort (fun a b => decide (a ≤ b))).Pairwise (· ≤ ·)) := by
  have h := @List.sorted_mergeSort ℕ (fun a b : ℕ => decide (a ≤ b))
    (fun a b c hab hbc => by
      simp only [decide_eq_true_eq] at hab hbc ⊢
      omega)
    (fun a b => by
      simp only [Bool.or_eq_true, decide_eq_true_eq]
      omega)
    l
  exact h.imp (by simp)

theorem length_add_le (rh : reqHistory) (req : WSReq) (h : rh.WF) :
    (rh.add req).requests.length ≤ maxReqHistory := by
  set m := goInsert rh.requests req.reqID req with hm
  by_cases hc : m.length ≤ maxReqHistory
  · rw [add_of_le rh req hc]
    exact hc
  · push_neg at hc
    rw [add_of_gt rh req hc]
    set L := (goKeys m).mergeSort (fun a b => decide (a ≤ b)) with hL
    set t := m.length - maxReqHistory with ht
    have hperm : L.Perm (goKeys m) := List.mergeSort_perm _ _
    have hnodupK : (goKeys m).Nodup := nodup_goKeys_goInsert _ _ _ h
    have hnodupL : L.Nodup := hperm.nodup_iff.mpr hnodupK
    have hLlen : L.length = m.length := by
      rw [hperm.length_eq]
      simp [goKeys]
    have htake_nodup : (L.take t).Nodup :=
      hnodupL.sublist (List.take_sublist t L)
    have htake_mem : ∀ k ∈ L.take t, k ∈ goKeys m := fun k hk =>
      hperm.mem_iff.mp (List.mem_of_mem_take hk)
    have htake_len : (L.take t).length = t := by
      rw [List.length_take]
      omega
    rw [length_foldl_goErase _ _ hnodupK htake_nodup htake_mem, htake_len]
    omega

theorem add_evicted_lt (rh : reqHistory) (req : WSReq) (h : rh.WF)
    (k k2 : ℕ) (hk_in : k ∈ goKeys (goInsert rh.requests req.reqID req))
    (hk_out : k ∉ goKeys (rh.add req).requests)
    (hk2_in : k2 ∈ goKeys (rh.add req).requests) : k < k2 := by
  set m := goInsert rh.requests req.reqID req with hm
  by_cases hc : m.length ≤ maxReqHistory
  · rw [add_of_le rh req hc] at hk_out
    exact absurd hk_in hk_out
  · push_neg at hc
    rw [add_of_gt rh req hc] at hk_out hk2_in
    set L := (goKeys m).mergeSort (fun a b => decide (a ≤ b)) with hL
    set t := m.length - maxReqHistory with ht
    have hperm : L.Perm (goKeys m) := List.mergeSort_perm _ _
    have hnodupK : (goKeys m).Nodup := nodup_goKeys_goInsert _ _ _ h
    have hnodupL : L.Nodup := hperm.nodup_iff.mpr hnodupK
    rw [mem_goKeys_foldl_goErase] at hk_out hk2_in
    have hk_take : k ∈ L.take t := by
      by_contra hcon
      exact hk_out ⟨hk_in, hcon⟩
    have hk2_drop : k2 ∈ L.drop t := by
      have hk2L : k2 ∈ L := hperm.mem_iff.mpr hk2_in.1
      have hsplit : k2 ∈ L.take t ++ L.drop t := by
        rw [List.take_append_drop]
        exact hk2L
      rcases List.mem_append.mp hsplit with hh | hh
      · exact absurd hh hk2_in.2
      · exact hh
    have hsorted : (L.take t ++ L.drop t).Pairwise (· ≤ ·) := by
      rw [List.take_append_drop]
      exact sortedKeys_pairwise (goKeys m)
    have hnd2 : (L.take t ++ L.drop t).Nodup := by
      rw [List.take_append_drop]
      exact hnodupL
    have hle : k ≤ k2 :=
      (List.pairwise_append.mp hsorted).2.2 k hk_take k2 hk2_drop
    have hne : k ≠ k2 := by
      rintro rfl
      exact (List.nodup_append.mp hnd2).2.2 hk_take hk2_drop
    omega

theorem get_add_self_of_mem (rh : reqHistory) (req : WSReq)
    (hmem : req.reqID ∈ goKeys (rh.add req).requests) :
    (rh.add req).get req.reqID = some req := by
  by_cases hc : (goInsert rh.requests req.reqID req).length ≤ maxReqHistory
  · rw [add_of_le rh req hc]
    exact goGet_goInsert_self _ _ _
  · push_neg at hc
    rw [add_of_gt rh req hc] at hmem ⊢
    rw [mem_goKeys_foldl_goErase] at hmem
    show goGet _ _ = _
    rw [goGet_foldl_goErase_of_not_mem _ _ _ hmem.2]
    exact goGet_goInsert_self _ _ _

theorem get_add_ne_of_mem (rh : reqHistory) (req : WSReq) (k : ℕ)
    (hne : k ≠ req.reqID) (hmem : k ∈ goKeys (rh.add req).requests) :
    (rh.add req).get k = rh.get k := by
  by_cases hc : (goInsert rh.requests req.reqID req).length ≤ maxReqHistory
  · rw [add_of_le rh req hc]
    exact goGet_goInsert_ne _ _ _ _ hne
  · push_neg at hc
    rw [add_of_gt rh req hc] at hmem ⊢
    rw [mem_goKeys_foldl_goErase] at hmem
    show goGet _ _ = _
    rw [goGet_foldl_goErase_of_not_mem _ _ _ hmem.2]
    exact goGet_goInsert_ne _ _ _ _ hne

theorem get_of_not_mem_keys (rh : reqHistory) (k : ℕ)
    (h : k ∉ goKeys rh.requests) : rh.get k = none :=
  (goGet_eq_none_iff _ _).mpr h

theorem get_delete_self (rh : reqHistory) (k : ℕ) :
    (rh.delete k).get k = none :=
  goGet_goErase_self _ _

theorem WF_add (rh : reqHistory) (req : WSReq) (h : rh.WF) :
    (rh.add req).WF := by
  by_cases hc : (goInsert rh.requests req.reqID req).length ≤ maxReqHistory
  · rw [add_of_le rh req hc]
    exact nodup_goKeys_goInsert _ _ _ h
  · push_neg at hc
    rw [add_of_gt rh req hc]
    exact nodup_goKeys_foldl_goErase _ _ (nodup_goKeys_goInsert _ _ _ h)

theorem WF_delete (rh : reqHistory) (k : ℕ) (h : rh.WF) :
    (rh.delete k).WF :=
  nodup_goKeys_goErase _ _ h

theorem foldl_add_fresh (reqs : List WSReq) (rh : reqHistory)
    (hnd : (goKeys rh.requests ++ reqs.map WSReq.reqID).Nodup)
    (hlen : rh.requests.length + reqs.length ≤ maxReqHistory) :
    (reqs.foldl reqHistory.add rh).requests
      = rh.requests ++ reqs.map (fun r => (r.reqID, r)) := by
  induction reqs generalizing rh with
  | nil => simp
  | cons r rest ih =>
    have hfresh : r.reqID ∉ goKeys rh.requests := by
      intro hcon
      have hdisj := (List.nodup_append.mp hnd).2.2
      exact hdisj hcon (by simp)
    have hstep : rh.add r = ⟨rh.requests ++ [(r.reqID, r)]⟩ := by
      rw [add_of_le]
      · rw [goInsert_fresh _ _ _ hfresh]
      · rw [goInsert_fresh _ _ _ hfresh]
        simp only [List.length_append, List.length_cons, List.length_nil]
        simp only [List.length_cons] at hlen
        omega
    have hkeys2 : goKeys (rh.requests ++ [(r.reqID, r)])
        = goKeys rh.requests ++ [r.reqID] := by
      simp [goKeys]
    have hnd2 : (goKeys (rh.requests ++ [(r.reqID, r)])
        ++ rest.map WSReq.reqID).Nodup := by
      rw [hkeys2, List.append_assoc]
      simpa using hnd
    have hlen2 : (rh.requests ++ [(r.reqID, r)]).length + rest.length
        ≤ maxReqHistory := by
      simp only [List.length_append, List.length_cons, List.length_nil]
      simp only [List.length_cons] at hlen
      omega
    rw [List.foldl_cons, hstep]
    rw [ih ⟨rh.requests ++ [(r.reqID, r)]⟩ hnd2 hlen2]
    simp

theorem foldl_add_overflow (reqs : List WSReq)
    (hnd : (reqs.map WSReq.reqID).Nodup)
    (hlen : reqs.length = maxReqHistory + 1) :
    ((reqs.foldl reqHistory.add newReqHistory).requests.length = maxReqHistory)
    ∧ ∀ req ∈ reqs,
        ((∀ r2 ∈ reqs, req.reqID ≤ r2.reqID) →
          (reqs.foldl reqHistory.add newReqHistory).get req.reqID = none)
        ∧ ((∃ r2 ∈ reqs, r2.reqID < req.reqID) →
          (reqs.foldl reqHistory.add newReqHistory).get req.reqID = some req) := by
  have hne : reqs ≠ [] := by
    intro hcon
    rw [hcon] at hlen
    simp [maxReqHistory] at hlen
  have hsplit : reqs.dropLast ++ [reqs.getLast hne] = reqs :=
    List.dropLast_append_getLast hne
  set rs := reqs.dropLast with hrs
  set rl := reqs.getLast hne with hrl
  have hrs_len : rs.length = maxReqHistory := by
    rw [hrs, List.length_dropLast, hlen]
    omega
  have hfold : reqs.foldl reqHistory.add newReqHistory
      = (rs.foldl reqHistory.add newReqHistory).add rl := by
    conv_lhs => rw [← hsplit]
    rw [List.foldl_append]
    simp
  have hids : reqs.map WSReq.reqID = rs.map WSReq.reqID ++ [rl.reqID] := by
    conv_lhs => rw [← hsplit]
    simp
  have hnd2 : (rs.map WSReq.reqID ++ [rl.reqID]).Nodup := hids ▸ hnd
  have hnd_rs : (rs.map WSReq.reqID).Nodup := (List.nodup_append.mp hnd2).1
  have hfreshl : rl.reqID ∉ rs.map WSReq.reqID := by
    intro hcon
    exact (List.nodup_append.mp hnd2).2.2 hcon (by simp)
  set M := rs.foldl reqHistory.add newReqHistory with hMdef
  have hM : M.requests = rs.map (fun r => (r.reqID, r)) := by
    have hfr := foldl_add_fresh rs newReqHistory
      (by simpa [newReqHistory, goKeys] using hnd_rs)
      (by simp [newReqHistory, hrs_len])
    simpa [newReqHistory] using hfr
  have hkeysM : goKeys M.requests = rs.map WSReq.reqID := by
    rw [hM, goKeys_map_pair]
  have hfreshM : rl.reqID ∉ goKeys M.requests := by
    rw [hkeysM]
    exact hfreshl
  have hm2 : goInsert M.requests rl.reqID rl
      = reqs.map (fun r => (r.reqID, r)) := by
    rw [goInsert_fresh _ _ _ hfreshM, hM, ← hsplit]
    simp
  have hm2len : (goInsert M.requests rl.reqID rl).length
      = maxReqHistory + 1 := by
    rw [hm2, List.length_map, hlen]
  have hkeysm2 : goKeys (goInsert M.requests rl.reqID rl)
      = reqs.map WSReq.reqID := by
    rw [hm2, goKeys_map_pair]
  have hndm2 : (goKeys (goInsert M.requests rl.reqID rl)).Nodup := by
    rw [hkeysm2]
    exact hnd
  have hadd : M.add rl =
      ⟨(((goKeys (goInsert M.requests rl.reqID rl)).mergeSort
            (fun a b => decide (a ≤ b))).take
          ((goInsert M.requests rl.reqID rl).length - maxReqHistory)).foldl
        goErase (goInsert M.requests rl.reqID rl)⟩ :=
    add_of_gt M rl (by omega)
  set L := (goKeys (goInsert M.requests rl.reqID rl)).mergeSort
      (fun a b => decide (a ≤ b)) with hLdef
  have hperm : L.Perm (goKeys (goInsert M.requests rl.reqID rl)) :=
    List.mergeSort_perm _ _
  have hLlen : L.length = maxReqHistory + 1 := by
    rw [hperm.length_eq, hkeysm2, List.length_map, hlen]
  have hLne : L ≠ [] := by
    intro hcon
    rw [hcon] at hLlen
    simp [maxReqHistory] at hLlen
  obtain ⟨a, T, hLsplit⟩ : ∃ a T, L = a :: T := by
    cases hLc : L with
    | nil => exact absurd hLc hLne
    | cons x xs => exact ⟨x, xs, rfl⟩
  have htake1 : (goInsert M.requests rl.reqID rl).length - maxReqHistory
      = 1 := by omega
  have hresult : (M.add rl).requests
      = goErase (goInsert M.requests rl.reqID rl) a := by
    rw [hadd, htake1, hLsplit]
    simp
  have haL : a ∈ L := by
    rw [hLsplit]
    exact List.mem_cons_self _ _
  have haKeys : a ∈ goKeys (goInsert M.requests rl.reqID rl) :=
    hperm.mem_iff.mp haL
  have haResultLen : (M.add rl).requests.length = maxReqHistory := by
    rw [hresult, length_goErase_of_mem _ _ hndm2 haKeys, hm2len]
    omega
  have hALeAll : ∀ b ∈ L, a ≤ b := by
    have hpw := sortedKeys_pairwise (goKeys (goInsert M.requests rl.reqID rl))
    rw [← hLdef, hLsplit] at hpw
    intro b hb
    rcases List.mem_cons.mp (hLsplit ▸ hb) with rfl | hbT
    · exact le_refl _
    · exact (List.pairwise_cons.mp hpw).1 b hbT
  have haReq : ∃ r2 ∈ reqs, a = r2.reqID := by
    rw [hkeysm2] at haKeys
    rcases List.mem_map.mp haKeys with ⟨r2, hr2, hr2eq⟩
    exact ⟨r2, hr2, hr2eq.symm⟩
  have hidKey : ∀ req ∈ reqs,
      req.reqID ∈ goKeys (goInsert M.requests rl.reqID rl) := by
    intro req hreq
    rw [hkeysm2]
    exact List.mem_map_of_mem _ hreq
  rw [hfold]
  refine ⟨haResultLen, ?_⟩
  intro req hreq
  constructor
  · intro hmin
    have haEq : a = req.reqID := by
      rcases haReq with ⟨r2, hr2, hr2eq⟩
      have h1 : req.reqID ≤ a := hr2eq ▸ hmin r2 hr2
      have h2 : a ≤ req.reqID :=
        hALeAll _ (hperm.mem_iff.mpr (hidKey req hreq))
      omega
    show goGet (M.add rl).requests req.reqID = none
    rw [hresult, ← haEq]
    exact goGet_goErase_self _ _
  · rintro ⟨r2, hr2, hr2lt⟩
    have haNe : req.reqID ≠ a := by
      have h1 : a ≤ r2.reqID :=
        hALeAll _ (hperm.mem_iff.mpr (hidKey r2 hr2))
      omega
    show goGet (M.add rl).requests req.reqID = some req
    rw [hresult, goGet_goErase_ne _ _ _ haNe, hm2]
    exact goGet_map_pair reqs WSReq.reqID hnd req hreq

/-- Claim C1: the Request Ledger's size never exceeds 1000 entries after
any operation: for every well-formed ledger state and every request,
after `add(request)` the ledger holds at most 1000 entries; when the
capacity was exceeded the evicted entries are exactly those with the
lowest-numbered request ids (every evicted key is smaller than every
surviving key); and inserting 1001 requests with distinct ids into a
fresh ledger leaves exactly 1000 entries with the lowest-numbered id
removed and every other request still present. -/
theorem c1_ledger_bounded :
    (∀ (rh : reqHistory) (req : WSReq), rh.WF →
      (rh.add req).requests.length ≤ maxReqHistory) ∧
    (∀ (rh : reqHistory) (req : WSReq), rh.WF →
      ∀ k k2 : ℕ, k ∈ goKeys (goInsert rh.requests req.reqID req) →
        k ∉ goKeys (rh.add req).requests →
        k2 ∈ goKeys (rh.add req).requests → k < k2) ∧
    (∀ reqs : List WSReq, (reqs.map WSReq.reqID).Nodup →
      reqs.length = maxReqHistory + 1 →
      (reqs.foldl reqHistory.add newReqHistory).requests.length
          = maxReqHistory ∧
      ∀ req ∈ reqs,
        ((∀ r2 ∈ reqs, req.reqID ≤ r2.reqID) →
          (reqs.foldl reqHistory.add newReqHistory).get req.reqID = none) ∧
        ((∃ r2 ∈ reqs, r2.reqID < req.reqID) →
          (reqs.foldl reqHistory.add newReqHistory).get req.reqID
              = some req)) :=
  ⟨fun rh req h => length_add_le rh req h,
   fun rh req h k k2 => add_evicted_lt rh req h k k2,
   fun reqs hnd hlen => foldl_add_overflow reqs hnd hlen⟩

/-- Witness for C1 at concrete inputs: the empty ledger is well-formed
and one `add` keeps it within the bound, and the 1001 requests with ids
`0..1000` leave exactly 1000 entries, with the minimal id 0 absent and
id 1 still present. -/
theorem c1_ledger_bounded_witness :
    (newReqHistory.WF ∧
      (newReqHistory.add (mkWSReq 5)).requests.length ≤ maxReqHistory) ∧
    ((((List.range (maxReqHistory + 1)).map mkWSReq).map WSReq.reqID).Nodup ∧
      ((List.range (maxReqHistory + 1)).map mkWSReq).length
          = maxReqHistory + 1 ∧
      (((List.range (maxReqHistory + 1)).map mkWSReq).foldl reqHistory.add
          newReqHistory).requests.length = maxReqHistory) := by
  have hwf : newReqHistory.WF := by
    simp [newReqHistory, reqHistory.WF, goKeys]
  have hnd :
      (((List.range (maxReqHistory + 1)).map mkWSReq).map WSReq.reqID).Nodup := by
    simp only [List.map_map]
    have hcomp : WSReq.reqID ∘ mkWSReq = id := by
      funext i
      rfl
    rw [hcomp, List.map_id]
    exact List.nodup_range _
  have hlen : ((List.range (maxReqHistory + 1)).map mkWSReq).length
      = maxReqHistory + 1 := by
    simp
  exact ⟨⟨hwf, c1_ledger_bounded.1 newReqHistory (mkWSReq 5) hwf⟩,
    hnd, hlen, (c1_ledger_bounded.2.2 _ hnd hlen).1⟩

/-- Claim C5: `get` after `add` (while the entry is present, i.e. before
it is removed or evicted) returns the original request; `add` leaves
other still-present entries unchanged; after `remove(id)` the lookup
returns absent; and any id absent from the ledger (in particular an
evicted one) looks up as absent. -/
theorem c5_ledger_get_semantics :
    (∀ (rh : reqHistory) (req : WSReq),
      req.reqID ∈ goKeys (rh.add req).requests →
      (rh.add req).get req.reqID = some req) ∧
    (∀ (rh : reqHistory) (req : WSReq) (k : ℕ), k ≠ req.reqID →
      k ∈ goKeys (rh.add req).requests →
      (rh.add req).get k = rh.get k) ∧
    (∀ (rh : reqHistory) (k : ℕ), (rh.delete k).get k = none) ∧
    (∀ (rh : reqHistory) (k : ℕ), k ∉ goKeys rh.requests →
      rh.get k = none) :=
  ⟨fun rh req h => get_add_self_of_mem rh req h,
   fun rh req k hne h => get_add_ne_of_mem rh req k hne h,
   fun rh k => get_delete_self rh k,
   fun rh k h => get_of_not_mem_keys rh k h⟩

/-- Witness for C5 at concrete inputs: after adding request 5 to the
empty ledger its lookup returns it, and after deleting key 7 the lookup
returns absent. -/
theorem c5_ledger_get_semantics_witness :
    (mkWSReq 5).reqID ∈ goKeys (newReqHistory.add (mkWSReq 5)).requests ∧
    (newReqHistory.add (mkWSReq 5)).get (mkWSReq 5).reqID
        = some (mkWSReq 5) ∧
    (newReqHistory.delete 7).get 7 = none := by
  have hmem : (mkWSReq 5).reqID
      ∈ goKeys (newReqHistory.add (mkWSReq 5)).requests := by
    have : newReqHistory.add (mkWSReq 5)
        = ⟨goInsert newReqHistory.requests 5 (mkWSReq 5)⟩ :=
      add_of_le newReqHistory (mkWSReq 5) (by simp [newReqHistory, goInsert,
        maxReqHistory])
    rw [this]
    simp [newReqHistory, goInsert, goKeys, mkWSReq]
  exact ⟨hmem,
    c5_ledger_get_semantics.1 newReqHistory (mkWSReq 5) hmem,
    c5_ledger_get_semantics.2.2.1 newReqHistory 7⟩

/-- Claim C6: `applyToResult` fetches and removes the ledger entry
matching the result's request id and attaches it to the result object
(when no entry matches, both are unchanged), and it is idempotent: a
second call for the same id finds no entry and leaves both the ledger
and the result object unchanged. -/
theorem c6_applyToResult :
    (∀ (rh : reqHistory) (msg : WSMessageResult) (req : WSReq),
      rh.get msg.reqID = some req →
      rh.applyToResult msg
        = (rh.delete msg.reqID, { msg with req := some req })) ∧
    (∀ (rh : reqHistory) (msg : WSMessageResult),
      rh.get msg.reqID = none → rh.applyToResult msg = (rh, msg)) ∧
    (∀ (rh : reqHistory) (msg : WSMessageResult),
      ((rh.applyToResult msg).1).applyToResult (rh.applyToResult msg).2
        = rh.applyToResult msg) := by
  refine ⟨?_, ?_, ?_⟩
  · intro rh msg req h
    simp [reqHistory.applyToResult, h]
  · intro rh msg h
    simp [reqHistory.applyToResult, h]
  · intro rh msg
    cases h : rh.get msg.reqID with
    | none => simp [reqHistory.applyToResult, h]
    | some req =>
      simp only [reqHistory.applyToResult, h]
      have h2 : (rh.delete msg.reqID).get
          ({ msg with req := some req } : WSMessageResult).reqID = none :=
        get_delete_self rh msg.reqID
      simp [h2]

/-- Witness for C6 at concrete inputs: with a ledger holding request 3
and a result for id 3, `applyToResult` removes the entry and attaches
the request, and a second call changes nothing. -/
theorem c6_applyToResult_witness :
    (reqHistory.mk [(3, mkWSReq 3)]).get 3 = some (mkWSReq 3) ∧
    (reqHistory.mk [(3, mkWSReq 3)]).applyToResult
        ⟨3, "result", true, "", "", none⟩
      = ((reqHistory.mk [(3, mkWSReq 3)]).delete 3,
          ⟨3, "result", true, "", "", some (mkWSReq 3)⟩) := by
  have hget : (reqHistory.mk [(3, mkWSReq 3)]).get 3 = some (mkWSReq 3) := rfl
  exact ⟨hget,
    c6_applyToResult.1 (reqHistory.mk [(3, mkWSReq 3)])
      ⟨3, "result", true, "", "", none⟩ (mkWSReq 3) hget⟩

theorem runNewReqs_eq_map (wsc : WSClient) (n : ℕ) :
    wsc.runNewReqs n
      = (List.range n).map (fun i => (wsc.messageID + i + 1) % uint64Mod) := by
  induction n generalizing wsc with
  | zero => rfl
  | succ n ih =>
    rw [WSClient.runNewReqs, List.range_succ_eq_map, List.map_cons]
    simp only [WSClient.NewReq]
    rw [ih]
    congr 1
    rw [List.map_map]
    apply List.map_congr_left
    intro i _
    simp only [Function.comp]
    conv_lhs => rw [Nat.add_assoc]
    rw [Nat.mod_add_mod]
    congr 1
    omega

theorem runNewReqs_pairwise_lt (wsc : WSClient) (n : ℕ)
    (h : wsc.messageID + n < uint64Mod) :
    (wsc.runNewReqs n).Pairwise (· < ·) := by
  rw [runNewReqs_eq_map]
  rw [List.pairwise_map]
  have hrange : (List.range n).Pairwise (· < ·) := List.pairwise_lt_range n
  refine hrange.imp_of_mem ?_
  intro i j hi hj hij
  rw [List.mem_range] at hi hj
  have h1 : wsc.messageID + i + 1 < uint64Mod := by omega
  have h2 : wsc.messageID + j + 1 < uint64Mod := by omega
  rw [Nat.mod_eq_of_lt h1, Nat.mod_eq_of_lt h2]
  omega

theorem filter_key_length_le_one (rh : reqHistory) (h : rh.WF) (k : ℕ) :
    (rh.requests.filter (fun p => p.1 == k)).length ≤ 1 := by
  have hcount : (goKeys rh.requests).count k ≤ 1 :=
    List.nodup_iff_count_le_one.mp h k
  have heq : (goKeys rh.requests).count k
      = (rh.requests.filter (fun p => p.1 == k)).length := by
    rw [List.count, ← List.countP_eq_length_filter, goKeys, List.countP_map]
    rfl
  omega

/-- Claim C8 counterexample: the request-id counter is a wrapping
`uint64` (`atomic.Uint64.Add`), so the ids returned across a full
sequence of `2 ^ 64` calls on a fresh manager instance are not strictly
increasing — the id wraps back to 0 after the counter reaches
`2 ^ 64 - 1`, so the claim that every returned id is strictly greater
than all previously returned ids fails on that sequence. -/
theorem c8_monotonic_ids_counterexample :
    ¬ ((⟨false, false, false, ⟨[], [], [], []⟩, false, 0,
        newReqHistory⟩ : WSClient).runNewReqs uint64Mod).Pairwise
      (· < ·) := by
  intro hpw
  rw [runNewReqs_eq_map] at hpw
  have hmid : (⟨false, false, false, ⟨[], [], [], []⟩, false, 0,
      newReqHistory⟩ : WSClient).messageID = 0 := rfl
  rw [hmid] at hpw
  have hM : 1 < uint64Mod := by
    simp [uint64Mod]
  have hget := List.pairwise_iff_getElem.mp hpw 0 (uint64Mod - 1)
    (by simp only [List.length_map, List.length_range]; omega)
    (by simp only [List.length_map, List.length_range]; omega)
    (by omega)
  simp only [List.getElem_map, List.getElem_range] at hget
  have hv1 : (0 + 0 + 1) % uint64Mod = 1 := by
    rw [Nat.mod_eq_of_lt (by omega)]
  have hv2 : (0 + (uint64Mod - 1) + 1) % uint64Mod = 0 := by
    have : 0 + (uint64Mod - 1) + 1 = uint64Mod := by omega
    rw [this, Nat.mod_self]
  rw [hv1, hv2] at hget
  omega

/-- Claim C8 (amended): `NewReq` stamps each request with the
incremented value of the manager's wrapping `uint64` counter; across any
sequence of calls that does not wrap the counter — in particular any
sequence of fewer than `2 ^ 64` calls on a fresh manager instance, whose
counter starts at 0 — every returned request id is strictly greater than
all previously returned ids, so no id is reused; and, the ledger being
keyed by request id, every id tags at most one ledger entry at a time. -/
theorem c8_monotonic_ids :
    (∀ wsc : WSClient,
      (wsc.NewReq).2.reqID = (wsc.messageID + 1) % uint64Mod ∧
      (wsc.NewReq).1.messageID = (wsc.messageID + 1) % uint64Mod) ∧
    (∀ (wsc : WSClient) (n : ℕ), wsc.messageID + n < uint64Mod →
      (wsc.runNewReqs n).Pairwise (· < ·)) ∧
    (∀ (rh : reqHistory), rh.WF → ∀ k : ℕ,
      (rh.requests.filter (fun p => p.1 == k)).length ≤ 1) :=
  ⟨fun wsc => ⟨rfl, rfl⟩,
   fun wsc n h => runNewReqs_pairwise_lt wsc n h,
   fun rh h k => filter_key_length_le_one rh h k⟩

/-- Witness for the amended C8 at concrete inputs: three calls on a
fresh instance stay below the wrap bound and produce strictly increasing
ids, and a concrete one-entry ledger holds at most one entry per id. -/
theorem c8_monotonic_ids_witness :
    (0 + 3 < uint64Mod ∧
      ((⟨false, false, false, ⟨[], [], [], []⟩, false, 0,
          newReqHistory⟩ : WSClient).runNewReqs 3).Pairwise (· < ·)) ∧
    ((reqHistory.mk [(3, mkWSReq 3)]).WF ∧
      ((reqHistory.mk [(3, mkWSReq 3)]).requests.filter
        (fun p => p.1 == 9)).length ≤ 1) := by
  have hb : (0 : ℕ) + 3 < uint64Mod := by
    simp [uint64Mod]
  have hwf : (reqHistory.mk [(3, mkWSReq 3)]).WF := by
    simp [reqHistory.WF, goKeys]
  exact ⟨⟨hb, c8_monotonic_ids.2.1 _ 3 hb⟩,
    ⟨hwf, c8_monotonic_ids.2.2 _ hwf 9⟩⟩

theorem stubUnmarshal_error_iff (v : JValue) :
    (∃ e, wsMessageStub.UnmarshalJSON v = .error e) ↔
      ∀ s : String, frameTag v ≠ some (.str s) := by
  cases v with
  | obj fields =>
    simp only [wsMessageStub.UnmarshalJSON, frameTag]
    cases hget : goGet (goObjMap fields) "type" with
    | none => simp
    | some jv => cases jv <;> simp
  | null => simp [wsMessageStub.UnmarshalJSON, frameTag]
  | bool b => simp [wsMessageStub.UnmarshalJSON, frameTag]
  | num q => simp [wsMessageStub.UnmarshalJSON, frameTag]
  | str s => simp [wsMessageStub.UnmarshalJSON, frameTag]
  | arr elems => simp [wsMessageStub.UnmarshalJSON, frameTag]

theorem decodeFrame_malformed_iff_stub (v : JValue) :
    (∃ e, decodeFrame v = .error (.malformed e)) ↔
      (∃ e, wsMessageStub.UnmarshalJSON v = .error e) := by
  cases hs : wsMessageStub.UnmarshalJSON v with
  | error e => simp [decodeFrame, hs]
  | ok stub =>
    simp only [decodeFrame, hs]
    cases htm : stub.toMessage with
    | ok m => simp
    | error e2 => cases e2 <;> simp

theorem toMessage_unknown_iff (stub : wsMessageStub) :
    (∃ t, stub.toMessage = .error (.unknownMessageType t)) ↔
      (stub.type ≠ MessageTypeResult ∧ stub.type ≠ MessageTypeDatarefUpdate ∧
        stub.type ≠ MessageTypeCommandUpdate) := by
  unfold wsMessageStub.toMessage
  by_cases h1 : stub.type = MessageTypeResult
  · rw [if_pos h1]
    cases hd : WSMessageResult.decode stub.json <;> simp [h1]
  · rw [if_neg h1]
    by_cases h2 : stub.type = MessageTypeDatarefUpdate
    · rw [if_pos h2]
      cases hd : WSMessageDatarefUpdate.decode stub.json <;> simp [h2]
    · rw [if_neg h2]
      by_cases h3 : stub.type = MessageTypeCommandUpdate
      · rw [if_pos h3]
        cases hd : WSMessageCommandUpdate.decode stub.json <;> simp [h3]
      · rw [if_neg h3]
        simp [h1, h2, h3]

theorem knownInboundTag_iff (t : String) :
    knownInboundTag t ↔ (t = MessageTypeResult ∨ t = MessageTypeDatarefUpdate
      ∨ t = MessageTypeCommandUpdate) := by
  constructor
  · rintro ⟨j, m, hok⟩
    by_contra hcon
    push_neg at hcon
    simp only [wsMessageStub.toMessage] at hok
    rw [if_neg hcon.1, if_neg hcon.2.1, if_neg hcon.2.2] at hok
    exact absurd hok (by simp)
  · rintro (h | h | h)
    · exact ⟨.null, .result ⟨0, "", false, "", "", none⟩, by rw [h]; rfl⟩
    · exact ⟨.null, .datarefUpdate ⟨"", []⟩, by rw [h]; rfl⟩
    · exact ⟨.null, .commandUpdate ⟨"", []⟩, by rw [h]; rfl⟩

theorem readLoopStep_frame_eq (wsc : WSClient) (v : JValue) :
    wsc.readLoopStep (.frame v)
      = match wsMessageStub.UnmarshalJSON v with
        | .error _ => ⟨wsc, .continueLoop, none, some .readFailed⟩
        | .ok stub =>
          match stub.toMessage with
          | .error _ => ⟨wsc, .continueLoop, none, some .unmarshalFailed⟩
          | .ok msg => dispatchMessage wsc msg := rfl

theorem decodeFrame_of_stub_error (v : JValue) (e : StubErr)
    (hs : wsMessageStub.UnmarshalJSON v = .error e) :
    decodeFrame v = .error (.malformed e) := by
  unfold decodeFrame
  rw [hs]

theorem decodeFrame_of_stub_ok (v : JValue) (stub : wsMessageStub)
    (hs : wsMessageStub.UnmarshalJSON v = .ok stub) :
    decodeFrame v
      = match stub.toMessage with
        | .ok msg => .ok msg
        | .error (.unknownMessageType t) => .error (.unknownMessageType t)
        | .error .copyErr => .error .variantDecode := by
  unfold decodeFrame
  rw [hs]

theorem readLoopStep_frame_failed (wsc : WSClient) (v : JValue)
    (hfail : ∃ e, decodeFrame v = .error e) :
    (wsc.readLoopStep (.frame v)).state = wsc ∧
    (wsc.readLoopStep (.frame v)).action = .continueLoop ∧
    (wsc.readLoopStep (.frame v)).dispatched = none := by
  rw [readLoopStep_frame_eq]
  cases hs : wsMessageStub.UnmarshalJSON v with
  | error e2 => simp
  | ok stub =>
    cases htm : stub.toMessage with
    | error e2 => simp [htm]
    | ok m =>
      exfalso
      obtain ⟨e, he⟩ := hfail
      rw [decodeFrame_of_stub_ok v stub hs, htm] at he
      simp at he

theorem readLoopRun_skip (wsc : WSClient) (ev : ReadEvent)
    (evs : List ReadEvent)
    (hstate : (wsc.readLoopStep ev).state = wsc)
    (haction : (wsc.readLoopStep ev).action = .continueLoop)
    (hdisp : (wsc.readLoopStep ev).dispatched = none) :
    wsc.readLoopRun (ev :: evs) = wsc.readLoopRun evs := by
  rw [WSClient.readLoopRun]
  simp only [haction, hstate, hdisp, Option.toList_none, List.nil_append]

theorem readLoopStep_frame_ok (wsc : WSClient) (v : JValue)
    (msg : WSMessage) (h : decodeFrame v = .ok msg) :
    wsc.readLoopStep (.frame v) = dispatchMessage wsc msg := by
  rw [readLoopStep_frame_eq]
  cases hs : wsMessageStub.UnmarshalJSON v with
  | error e =>
    rw [decodeFrame_of_stub_error v e hs] at h
    simp at h
  | ok stub =>
    cases htm : stub.toMessage with
    | ok m2 =>
      rw [decodeFrame_of_stub_ok v stub hs, htm] at h
      simp only [Except.ok.injEq] at h
      simp [htm, h]
    | error e2 =>
      rw [decodeFrame_of_stub_ok v stub hs, htm] at h
      cases e2 <;> simp at h

/-- Claim C3 counterexample: the codec does not select among four known
variants — `toMessage` recognises exactly the three inbound tags
`result`, `dataref_update_values` and `command_update_is_active`, so no
four pairwise-distinct tags can all be decodable: the claim's
"selects one of four known variants" is false. -/
theorem c3_codec_errors_counterexample :
    ¬ ∃ t1 t2 t3 t4 : String, t1 ≠ t2 ∧ t1 ≠ t3 ∧ t1 ≠ t4 ∧ t2 ≠ t3 ∧
      t2 ≠ t4 ∧ t3 ≠ t4 ∧ knownInboundTag t1 ∧ knownInboundTag t2 ∧
      knownInboundTag t3 ∧ knownInboundTag t4 := by
  rintro ⟨t1, t2, t3, t4, h12, h13, h14, h23, h24, h34, k1, k2, k3, k4⟩
  rw [knownInboundTag_iff] at k1 k2 k3 k4
  rcases k1 with rfl | rfl | rfl <;> rcases k2 with rfl | rfl | rfl <;>
    rcases k3 with rfl | rfl | rfl <;> rcases k4 with rfl | rfl | rfl <;>
    simp_all

/-- Claim C3 (amended): for every raw inbound frame the codec fails with
the MalformedMessage condition exactly when the type tag is absent or
not a string; otherwise it selects one of the THREE known inbound
variants by the tag (`result`, `dataref_update_values`,
`command_update_is_active`) and fails with UnknownMessageType exactly
when the tag matches none of them; and such a failure does not terminate
the read loop — an event whose frame fails to decode is skipped and the
rest of the schedule is processed exactly as without it. -/
theorem c3_codec_errors :
    (∀ v : JValue, (∃ e, decodeFrame v = .error (.malformed e)) ↔
      ∀ s : String, frameTag v ≠ some (.str s)) ∧
    (∀ t : String, knownInboundTag t ↔
      (t = MessageTypeResult ∨ t = MessageTypeDatarefUpdate ∨
        t = MessageTypeCommandUpdate)) ∧
    (∀ stub : wsMessageStub,
      (∃ t, stub.toMessage = .error (.unknownMessageType t)) ↔
      (stub.type ≠ MessageTypeResult ∧ stub.type ≠ MessageTypeDatarefUpdate ∧
        stub.type ≠ MessageTypeCommandUpdate)) ∧
    (∀ (wsc : WSClient) (v : JValue) (evs : List ReadEvent),
      (∃ e, decodeFrame v = .error e) →
      wsc.readLoopRun (.frame v :: evs) = wsc.readLoopRun evs) := by
  refine ⟨?_, knownInboundTag_iff, toMessage_unknown_iff, ?_⟩
  · intro v
    rw [decodeFrame_malformed_iff_stub]
    exact stubUnmarshal_error_iff v
  · intro wsc v evs hfail
    obtain ⟨hst, hac, hdp⟩ := readLoopStep_frame_failed wsc v hfail
    exact readLoopRun_skip wsc _ evs hst hac hdp

/-- Witness for the amended C3 at a concrete input: the frame
`obj [type ↦ str "bogus"]` fails with UnknownMessageType, and
prepending it to a schedule leaves the remaining processing (here: one
well-formed `result` frame on a fresh client) unchanged. -/
theorem c3_codec_errors_witness :
    decodeFrame (.obj [("type", .str "bogus")])
        = .error (.unknownMessageType "bogus") ∧
    (⟨false, false, false, ⟨[], [], [], []⟩, true, 0,
        newReqHistory⟩ : WSClient).readLoopRun
        (.frame (.obj [("type", .str "bogus")]) ::
          [.frame (.obj [("type", .str "result")])])
      = (⟨false, false, false, ⟨[], [], [], []⟩, true, 0,
          newReqHistory⟩ : WSClient).readLoopRun
          [.frame (.obj [("type", .str "result")])] := by
  have hdec : decodeFrame (.obj [("type", .str "bogus")])
      = .error (.unknownMessageType "bogus") := by rfl
  exact ⟨hdec,
    c3_codec_errors.2.2.2 _ _ _ ⟨.unknownMessageType "bogus", hdec⟩⟩

/-- Claim C4: in every read-loop iteration, a receive failure that is a
peer-closed/reset condition (`ECONNRESET` or `ECONNABORTED`) makes the
loop exit and start the reconnect loop; every other receive error is
logged (`failed to read message`) and the loop continues with the
connection untouched; and every decode failure is logged and the loop
continues without tearing the connection down (the stub stage logs
`failed to read message` because `websocket.JSON.Receive` surfaces it,
the `toMessage` stage logs `failed to unmarshal incoming message`). -/
theorem c4_read_loop_failures :
    (∀ wsc : WSClient, wsc.readLoopStep (.readErr .connReset)
        = ⟨wsc, .startReconnect, none, none⟩) ∧
    (∀ wsc : WSClient, wsc.readLoopStep (.readErr .connAborted)
        = ⟨wsc, .startReconnect, none, none⟩) ∧
    (∀ wsc : WSClient, wsc.readLoopStep (.readErr .other)
        = ⟨wsc, .continueLoop, none, some .readFailed⟩) ∧
    (∀ (wsc : WSClient) (v : JValue) (e : StubErr),
      wsMessageStub.UnmarshalJSON v = .error e →
      wsc.readLoopStep (.frame v)
        = ⟨wsc, .continueLoop, none, some .readFailed⟩) ∧
    (∀ (wsc : WSClient) (v : JValue) (stub : wsMessageStub)
        (e : ToMessageErr),
      wsMessageStub.UnmarshalJSON v = .ok stub →
      stub.toMessage = .error e →
      wsc.readLoopStep (.frame v)
        = ⟨wsc, .continueLoop, none, some .unmarshalFailed⟩) := by
  refine ⟨fun wsc => rfl, fun wsc => rfl, fun wsc => rfl, ?_, ?_⟩
  · intro wsc v e hs
    rw [readLoopStep_frame_eq, hs]
  · intro wsc v stub e hs htm
    rw [readLoopStep_frame_eq, hs]
    simp [htm]

/-- Witness for C4 at concrete inputs: a reset error starts the
reconnect loop, a non-JSON-object frame (stub failure) is logged and
skipped, and a `bogus`-tagged frame (decode failure) is logged and
skipped, all on a concrete connected client. -/
theorem c4_read_loop_failures_witness :
    ((⟨false, false, false, ⟨[], [], [], []⟩, true, 0,
        newReqHistory⟩ : WSClient).readLoopStep (.readErr .connReset)
      = ⟨⟨false, false, false, ⟨[], [], [], []⟩, true, 0,
          newReqHistory⟩, .startReconnect, none, none⟩) ∧
    wsMessageStub.UnmarshalJSON (.arr []) = .error .notObject ∧
    ((⟨false, false, false, ⟨[], [], [], []⟩, true, 0,
        newReqHistory⟩ : WSClient).readLoopStep (.frame (.arr []))
      = ⟨⟨false, false, false, ⟨[], [], [], []⟩, true, 0,
          newReqHistory⟩, .continueLoop, none, some .readFailed⟩) ∧
    ((⟨false, false, false, ⟨[], [], [], []⟩, true, 0,
        newReqHistory⟩ : WSClient).readLoopStep
        (.frame (.obj [("type", .str "bogus")]))
      = ⟨⟨false, false, false, ⟨[], [], [], []⟩, true, 0,
          newReqHistory⟩, .continueLoop, none, some .unmarshalFailed⟩) := by
  refine ⟨c4_read_loop_failures.1 _, rfl, ?_, ?_⟩
  · exact c4_read_loop_failures.2.2.2.1 _ _ .notObject rfl
  · exact c4_read_loop_failures.2.2.2.2 _ _
      ⟨"bogus", .obj [("type", .str "bogus")]⟩
      (.unknownMessageType "bogus") rfl rfl

/-- Claim C10: when no result handler is registered, a decoded `result`
message leaves the client state — in particular the Ledger — unchanged
(the `applyToResult` lookup-and-remove is skipped and nothing is
dispatched), so the matching entry stays in the Ledger; when a result
handler is registered, the step performs `applyToResult` and dispatches
the enriched message. -/
theorem c10_result_without_handler :
    (∀ (wsc : WSClient) (v : JValue) (m : WSMessageResult),
      wsc.resultHandler = false → decodeFrame v = .ok (.result m) →
      wsc.readLoopStep (.frame v) = ⟨wsc, .continueLoop, none, none⟩) ∧
    (∀ (wsc : WSClient) (v : JValue) (m : WSMessageResult),
      wsc.resultHandler = true → decodeFrame v = .ok (.result m) →
      (wsc.readLoopStep (.frame v)).state.reqHistory
          = (wsc.reqHistory.applyToResult m).1 ∧
      (wsc.readLoopStep (.frame v)).dispatched
          = some (.result (wsc.reqHistory.applyToResult m).2)) := by
  constructor
  · intro wsc v m hh hd
    rw [readLoopStep_frame_ok wsc v _ hd]
    simp [dispatchMessage, hh]
  · intro wsc v m hh hd
    rw [readLoopStep_frame_ok wsc v _ hd]
    simp [dispatchMessage, hh]

/-- Witness for C10 at concrete inputs: a `result` frame for id 7
arriving at a client without a result handler whose Ledger holds request
7 leaves the state (and so the Ledger entry) untouched; the same frame
with a handler registered applies `applyToResult`. -/
theorem c10_result_without_handler_witness :
    (decodeFrame (.obj [("type", .str "result"), ("req_id", .num 7),
        ("success", .bool true)])
      = .ok (.result ⟨7, "result", true, "", "", none⟩)) ∧
    ((⟨false, false, false, ⟨[], [], [], []⟩, true, 7,
        ⟨[(7, mkWSReq 7)]⟩⟩ : WSClient).readLoopStep
        (.frame (.obj [("type", .str "result"), ("req_id", .num 7),
          ("success", .bool true)]))
      = ⟨⟨false, false, false, ⟨[], [], [], []⟩, true, 7,
          ⟨[(7, mkWSReq 7)]⟩⟩, .continueLoop, none, none⟩) ∧
    ((⟨false, false, true, ⟨[], [], [], []⟩, true, 7,
        ⟨[(7, mkWSReq 7)]⟩⟩ : WSClient).readLoopStep
        (.frame (.obj [("type", .str "result"), ("req_id", .num 7),
          ("success", .bool true)]))).state.reqHistory
      = ((⟨[(7, mkWSReq 7)]⟩ : reqHistory).applyToResult
          ⟨7, "result", true, "", "", none⟩).1 := by
  have hdec : decodeFrame (.obj [("type", .str "result"), ("req_id", .num 7),
      ("success", .bool true)])
      = .ok (.result ⟨7, "result", true, "", "", none⟩) := by rfl
  exact ⟨hdec,
    c10_result_without_handler.1 _ _ _ rfl hdec,
    (c10_result_without_handler.2 _ _ _ rfl hdec).1⟩

theorem send_reqHistory_eq (wsc : WSClient) (req : WSReq) (w : Bool) :
    (wsc.Send req w).1.reqHistory = wsc.reqHistory.add req := by
  unfold WSClient.Send
  split
  · split <;> rfl
  · rfl

theorem send_get_of_small (wsc : WSClient) (req : WSReq) (w : Bool)
    (h : wsc.reqHistory.requests.length < maxReqHistory) :
    (wsc.Send req w).1.reqHistory.get req.reqID = some req := by
  rw [send_reqHistory_eq]
  have hins : (goInsert wsc.reqHistory.requests req.reqID req).length
      ≤ maxReqHistory := by
    have hfl : (wsc.reqHistory.requests.filter
        (fun p => p.1 != req.reqID)).length
        ≤ wsc.reqHistory.requests.length := List.length_filter_le _ _
    simp only [goInsert, List.length_append, List.length_cons,
      List.length_nil]
    omega
  rw [add_of_le _ _ hins]
  exact goGet_goInsert_self _ _ _

/-- Claim C2 counterexample: calling `Send` with no open connection does
not fail with a NotConnected error — the repository defines no such
error and `Send` performs no connection check.  At this concrete input
the call records the request in the Ledger and then dereferences the
nil `*websocket.Conn` inside `websocket.JSON.Send`, a runtime crash
(`nilConnCrash`) rather than any returned error value. -/
theorem c2_send_failure_ledger_counterexample :
    ((⟨false, false, false, ⟨[], [], [], []⟩, false, 0,
        newReqHistory⟩ : WSClient).Send (mkWSReq 1) false).2
        = .nilConnCrash ∧
    SendOutcome.nilConnCrash ≠ SendOutcome.ok ∧
    SendOutcome.nilConnCrash ≠ SendOutcome.writeErr ∧
    ((⟨false, false, false, ⟨[], [], [], []⟩, false, 0,
        newReqHistory⟩ : WSClient).Send (mkWSReq 1) false).1.reqHistory.get
        (mkWSReq 1).reqID = some (mkWSReq 1) := by
  exact ⟨rfl, by decide, by decide, rfl⟩

/-- Claim C2 (amended): `Send` records the request in the Ledger before
attempting the write and never retracts it; with no open connection it
does not return a NotConnected error — it crashes dereferencing the nil
connection handle (after the Ledger entry was made); with an open
connection a failing transport write returns the write error; and in
every case that returns, the attempted request is still present in the
Ledger afterwards (whenever the Ledger was below capacity, so the new
entry itself could not be the one evicted by the bound). -/
theorem c2_send_failure_ledger :
    (∀ (wsc : WSClient) (req : WSReq) (w : Bool),
      (wsc.Send req w).1.reqHistory = wsc.reqHistory.add req) ∧
    (∀ (wsc : WSClient) (req : WSReq) (w : Bool),
      wsc.conn = false → (wsc.Send req w).2 = .nilConnCrash) ∧
    (∀ (wsc : WSClient) (req : WSReq),
      wsc.conn = true → (wsc.Send req true).2 = .writeErr) ∧
    (∀ (wsc : WSClient) (req : WSReq) (w : Bool),
      wsc.reqHistory.requests.length < maxReqHistory →
      (wsc.Send req w).1.reqHistory.get req.reqID = some req) := by
  refine ⟨send_reqHistory_eq, ?_, ?_, send_get_of_small⟩
  · intro wsc req w h
    simp [WSClient.Send, h]
  · intro wsc req h
    simp [WSClient.Send, h]

/-- Witness for the amended C2 at concrete inputs: on a connected client
with an empty (below-capacity) Ledger, a failing write returns the
transport error and the request is still present in the Ledger. -/
theorem c2_send_failure_ledger_witness :
    ((⟨false, false, false, ⟨[], [], [], []⟩, true, 0,
        newReqHistory⟩ : WSClient).Send (mkWSReq 2) true).2 = .writeErr ∧
    newReqHistory.requests.length < maxReqHistory ∧
    ((⟨false, false, false, ⟨[], [], [], []⟩, true, 0,
        newReqHistory⟩ : WSClient).Send (mkWSReq 2) true).1.reqHistory.get
        (mkWSReq 2).reqID = some (mkWSReq 2) := by
  refine ⟨c2_send_failure_ledger.2.2.1 _ (mkWSReq 2) rfl, by decide, ?_⟩
  exact c2_send_failure_ledger.2.2.2 _ (mkWSReq 2) true (by decide)

/-- Claim C9: enrichment attaches to each update entry the cached Entity
with that entry's id — `populateDatarefs` (resp. `populateCommands`)
sets each entry's reference to exactly the cache lookup for its id,
leaving the value untouched, and never fails (it is total and dispatch
always continues); when no Entity with the id is cached the lookup — and
hence the attached reference — is the absent sentinel `nil`, and the
name-based lookup returns the zero id rather than an error. -/
theorem c9_enrichment :
    (∀ (wsc : WSClient) (u : WSMessageDatarefUpdate) (k : ℕ)
        (dv : DatarefValue), (k, dv) ∈ u.data →
      (k, { dv with dataref := wsc.client.GetDatarefByID k })
          ∈ (u.populateDatarefs wsc).data) ∧
    (∀ (wsc : WSClient) (u : WSMessageDatarefUpdate) (k : ℕ)
        (dv2 : DatarefValue), (k, dv2) ∈ (u.populateDatarefs wsc).data →
      dv2.dataref = wsc.client.GetDatarefByID k ∧
        ∃ dv, (k, dv) ∈ u.data ∧ dv2.value = dv.value) ∧
    (∀ (wsc : WSClient) (u : WSMessageCommandUpdate) (k : ℕ)
        (cs : CommandStatus), (k, cs) ∈ u.data →
      (k, { cs with command := wsc.client.GetCommandByID k })
          ∈ (u.populateCommands wsc).data) ∧
    (∀ (c : Client) (id : ℕ), id ∉ goKeys c.datarefsByID →
      c.GetDatarefByID id = none) ∧
    (∀ (c : Client) (name : String), name ∉ goKeys c.datarefsByName →
      c.GetDatarefByName name = none ∧ c.GetDatarefID name = 0) := by
  refine ⟨?_, ?_, ?_, ?_, ?_⟩
  · intro wsc u k dv hmem
    exact List.mem_map_of_mem _ hmem
  · intro wsc u k dv2 hmem
    rcases List.mem_map.mp hmem with ⟨⟨k2, dv⟩, hp, heq⟩
    simp only [Prod.mk.injEq] at heq
    obtain ⟨rfl, rfl⟩ := heq
    exact ⟨rfl, dv, hp, rfl⟩
  · intro wsc u k cs hmem
    exact List.mem_map_of_mem _ hmem
  · intro c id h
    exact (goGet_eq_none_iff _ _).mpr h
  · intro c name h
    have hn : c.GetDatarefByName name = none :=
      (goGet_eq_none_iff _ _).mpr h
    refine ⟨hn, ?_⟩
    unfold Client.GetDatarefID
    rw [hn]

/-- Witness for C9 at concrete inputs: with a cache holding dataref 42
only, enrichment of an update carrying entries for ids 42 and 99
attaches the cached dataref to entry 42 and the absent sentinel to
entry 99, and lookups for the uncached id 7 / name `b` return the
sentinels. -/
theorem c9_enrichment_witness :
    ((42 : ℕ), (⟨none, .num 3⟩ : DatarefValue))
        ∈ (⟨MessageTypeDatarefUpdate,
            [(42, ⟨none, .num 3⟩), (99, ⟨none, .bool true⟩)]⟩ :
          WSMessageDatarefUpdate).data ∧
    ((42 : ℕ), (⟨some ⟨42, "a", "float"⟩, .num 3⟩ : DatarefValue))
        ∈ ((⟨MessageTypeDatarefUpdate,
            [(42, ⟨none, .num 3⟩), (99, ⟨none, .bool true⟩)]⟩ :
          WSMessageDatarefUpdate).populateDatarefs
            ⟨false, false, false,
              ⟨[], [], [(42, ⟨42, "a", "float"⟩)], [("a", ⟨42, "a", "float"⟩)]⟩,
              true, 0, newReqHistory⟩).data ∧
    (7 : ℕ) ∉ goKeys [((42 : ℕ), (⟨42, "a", "float"⟩ : Dataref))] ∧
    Client.GetDatarefByID
        ⟨[], [], [(42, ⟨42, "a", "float"⟩)], [("a", ⟨42, "a", "float"⟩)]⟩ 7
      = none ∧
    Client.GetDatarefID
        ⟨[], [], [(42, ⟨42, "a", "float"⟩)], [("a", ⟨42, "a", "float"⟩)]⟩ "b"
      = 0 := by
  have hmem : ((42 : ℕ), (⟨none, .num 3⟩ : DatarefValue))
      ∈ [((42 : ℕ), (⟨none, .num 3⟩ : DatarefValue)),
          (99, ⟨none, .bool true⟩)] := List.mem_cons_self _ _
  have hnotmem : (7 : ℕ) ∉ goKeys [((42 : ℕ), (⟨42, "a", "float"⟩ : Dataref))] := by
    decide
  have hnotname : "b" ∉ goKeys [("a", (⟨42, "a", "float"⟩ : Dataref))] := by
    simp [goKeys]
  exact ⟨hmem,
    c9_enrichment.1 _ _ 42 ⟨none, .num 3⟩ hmem,
    hnotmem,
    c9_enrichment.2.2.2.1 _ 7 hnotmem,
    (c9_enrichment.2.2.2.2 _ "b" hnotname).2⟩

theorem mem_goInsert_elim {κ α : Type} [DecidableEq κ]
    {m : List (κ × α)} {k : κ} {v : α} {p : κ × α}
    (h : p ∈ goInsert m k v) : p ∈ m ∨ p = (k, v) := by
  rcases List.mem_append.mp h with h1 | h1
  · exact Or.inl (List.mem_of_mem_filter h1)
  · simp only [List.mem_singleton] at h1
    exact Or.inr h1

theorem wsDatarefValuesLoop_error (l : List (String × JValue))
    (acc : WSDatarefValuesMap) (h : ∃ p ∈ l, parseUint64 p.1 = none) :
    wsDatarefValuesLoop l acc = .error () := by
  induction l generalizing acc with
  | nil => simp at h
  | cons p rest ih =>
    rcases h with ⟨q, hq, hqe⟩
    rcases List.mem_cons.mp hq with rfl | hmem
    · simp [wsDatarefValuesLoop, hqe]
    · cases hp : parseUint64 p.1 with
      | none => simp [wsDatarefValuesLoop, hp]
      | some id =>
        simp only [wsDatarefValuesLoop, hp]
        exact ih _ ⟨q, hmem, hqe⟩

theorem wsDatarefValuesLoop_ok_mem (l : List (String × JValue))
    (acc m : WSDatarefValuesMap)
    (hok : wsDatarefValuesLoop l acc = .ok m) (p : ℕ × DatarefValue)
    (hp : p ∈ m) :
    p ∈ acc ∨ ∃ ks v, (ks, v) ∈ l ∧ parseUint64 ks = some p.1 ∧
      p.2 = ⟨none, v⟩ := by
  induction l generalizing acc with
  | nil =>
    simp only [wsDatarefValuesLoop, Except.ok.injEq] at hok
    exact Or.inl (hok ▸ hp)
  | cons q rest ih =>
    cases hq : parseUint64 q.1 with
    | none => simp [wsDatarefValuesLoop, hq] at hok
    | some id =>
      simp only [wsDatarefValuesLoop, hq] at hok
      rcases ih _ hok with hacc | ⟨ks, v, hkv, hks, hval⟩
      · rcases mem_goInsert_elim hacc with h1 | h1
        · exact Or.inl h1
        · refine Or.inr ⟨q.1, q.2, by simp, ?_, ?_⟩
          · rw [hq, h1]
          · rw [h1]
      · exact Or.inr ⟨ks, v, List.mem_cons_of_mem _ hkv, hks, hval⟩

theorem wsDatarefValuesLoop_nodup (l : List (String × JValue))
    (acc m : WSDatarefValuesMap)
    (hok : wsDatarefValuesLoop l acc = .ok m)
    (hacc : (goKeys acc).Nodup) : (goKeys m).Nodup := by
  induction l generalizing acc with
  | nil =>
    simp only [wsDatarefValuesLoop, Except.ok.injEq] at hok
    exact hok ▸ hacc
  | cons q rest ih =>
    cases hq : parseUint64 q.1 with
    | none => simp [wsDatarefValuesLoop, hq] at hok
    | some id =>
      simp only [wsDatarefValuesLoop, hq] at hok
      exact ih _ hok (nodup_goKeys_goInsert _ _ _ hacc)

theorem jsonToStringBoolMap_keys (l : List (String × JValue))
    (bm : List (String × Bool)) (h : jsonToStringBoolMap l = .ok bm) :
    bm.map Prod.fst = l.map Prod.fst := by
  induction l generalizing bm with
  | nil =>
    simp only [jsonToStringBoolMap, Except.ok.injEq] at h
    rw [← h]
    rfl
  | cons q rest ih =>
    rw [jsonToStringBoolMap] at h
    cases hb : jsonToBool q.2 with
    | error e =>
      rw [hb] at h
      cases h
    | ok b =>
      rw [hb] at h
      cases hrest : jsonToStringBoolMap rest with
      | error e =>
        rw [hrest] at h
        cases h
      | ok bm2 =>
        rw [hrest] at h
        injection h with h2
        subst h2
        simp [ih bm2 hrest]

theorem wsCommandStatusLoop_error (l : List (String × Bool))
    (acc : WSCommandStatusMap) (h : ∃ p ∈ l, parseUint64 p.1 = none) :
    wsCommandStatusLoop l acc = .error () := by
  induction l generalizing acc with
  | nil => simp at h
  | cons p rest ih =>
    rcases h with ⟨q, hq, hqe⟩
    rcases List.mem_cons.mp hq with rfl | hmem
    · simp [wsCommandStatusLoop, hqe]
    · cases hp : parseUint64 p.1 with
      | none => simp [wsCommandStatusLoop, hp]
      | some id =>
        simp only [wsCommandStatusLoop, hp]
        exact ih _ ⟨q, hmem, hqe⟩

theorem wsCommandStatus_unmarshal_obj (fields : List (String × JValue)) :
    WSCommandStatusMap.UnmarshalJSON (.obj fields)
      = (jsonToStringBoolMap (goObjMap fields)).bind
          (fun dataMap => wsCommandStatusLoop dataMap []) := rfl

/-- Claim C7: for every entity-update frame, each map key is decoded as
a decimal string into the entity's numeric id, producing exactly one
value record per id (the resulting map has no duplicate ids, and every
record stems from a key that parses to its id, carrying that key's raw
value and no entity reference yet); any non-numeric key makes the whole
decode fail, for the dataref-values map and the command-status map
alike; and decoding the concrete frame
`obj [type ↦ "dataref_update_values", data ↦ obj ["42" ↦ 3.14]]` yields
exactly one update entry for numeric id 42 with value 3.14. -/
theorem c7_update_key_decoding :
    (∀ fields : List (String × JValue),
      (∃ p ∈ goObjMap fields, parseUint64 p.1 = none) →
      WSDatarefValuesMap.UnmarshalJSON (.obj fields) = .error ()) ∧
    (∀ (fields : List (String × JValue)) (m : WSDatarefValuesMap),
      WSDatarefValuesMap.UnmarshalJSON (.obj fields) = .ok m →
      (goKeys m).Nodup ∧
      ∀ p ∈ m, ∃ ks v, (ks, v) ∈ goObjMap fields ∧
        parseUint64 ks = some p.1 ∧ p.2 = ⟨none, v⟩) ∧
    (∀ fields : List (String × JValue),
      (∃ p ∈ goObjMap fields, parseUint64 p.1 = none) →
      ∀ m : WSCommandStatusMap,
        WSCommandStatusMap.UnmarshalJSON (.obj fields) ≠ .ok m) ∧
    (decodeFrame (.obj [("type", .str "dataref_update_values"),
        ("data", .obj [("42", .num (157 / 50 : ℚ))])])
      = .ok (.datarefUpdate ⟨"dataref_update_values",
          [(42, ⟨none, .num (157 / 50 : ℚ)⟩)]⟩)) := by
  refine ⟨?_, ?_, ?_, ?_⟩
  · intro fields h
    show wsDatarefValuesLoop (goObjMap fields) [] = .error ()
    exact wsDatarefValuesLoop_error _ _ h
  · intro fields m hok
    have hok2 : wsDatarefValuesLoop (goObjMap fields) [] = .ok m := hok
    constructor
    · exact wsDatarefValuesLoop_nodup _ _ _ hok2 (by simp [goKeys])
    · intro p hp
      rcases wsDatarefValuesLoop_ok_mem _ _ _ hok2 p hp with hacc | hsrc
      · simp at hacc
      · exact hsrc
  · intro fields h m hcon
    rw [wsCommandStatus_unmarshal_obj] at hcon
    cases hb : jsonToStringBoolMap (goObjMap fields) with
    | error e =>
      rw [hb] at hcon
      cases hcon
    | ok bm =>
      rw [hb] at hcon
      have hkeys := jsonToStringBoolMap_keys _ _ hb
      rcases h with ⟨q, hq, hqe⟩
      have hqmem : q.1 ∈ bm.map Prod.fst := by
        rw [hkeys]
        exact List.mem_map_of_mem _ hq
      rcases List.mem_map.mp hqmem with ⟨p, hpmem, hpeq⟩
      have herr : wsCommandStatusLoop bm [] = .error () :=
        wsCommandStatusLoop_error _ _ ⟨p, hpmem, by rw [hpeq]; exact hqe⟩
      rw [show ((Except.ok bm : Except Unit (List (String × Bool))).bind
          (fun dataMap => wsCommandStatusLoop dataMap []))
          = wsCommandStatusLoop bm [] from rfl, herr] at hcon
      cases hcon
  · rfl

/-- Witness for C7 at concrete inputs: the key `"x1"` is non-numeric and
makes the whole dataref-values decode (and the command-status decode)
fail, while the all-numeric object decodes with the characterised
entries. -/
theorem c7_update_key_decoding_witness :
    (∃ p ∈ goObjMap [("x1", JValue.num 1)], parseUint64 p.1 = none) ∧
    WSDatarefValuesMap.UnmarshalJSON (.obj [("x1", JValue.num 1)])
        = .error () ∧
    (∀ m : WSCommandStatusMap,
      WSCommandStatusMap.UnmarshalJSON (.obj [("x1", JValue.num 1)])
        ≠ .ok m) ∧
    WSDatarefValuesMap.UnmarshalJSON (.obj [("42", JValue.bool true)])
        = .ok [(42, ⟨none, .bool true⟩)] ∧
    (goKeys [((42 : ℕ), (⟨none, .bool true⟩ : DatarefValue))]).Nodup := by
  have hbad : ∃ p ∈ goObjMap [("x1", JValue.num 1)],
      parseUint64 p.1 = none := by
    refine ⟨("x1", JValue.num 1), ?_, ?_⟩
    · show ("x1", JValue.num 1) ∈ goInsert [] "x1" (JValue.num 1)
      simp [goInsert]
    · rfl
  have hok : WSDatarefValuesMap.UnmarshalJSON (.obj [("42", JValue.bool true)])
      = .ok [(42, ⟨none, .bool true⟩)] := rfl
  exact ⟨hbad,
    c7_update_key_decoding.1 _ hbad,
    c7_update_key_decoding.2.2.1 _ hbad,
    hok,
    (c7_update_key_decoding.2.1 _ _ hok).1⟩
